import Mathlib

/-!
# Verification of the bilingualsub subtitle pipeline

A shallow embedding of the bilingualsub repository (Python) in Lean 4.

Modelling conventions:
* Python `str` values are modelled as `List Char`; the helper `chars`
  converts a Lean string literal into that representation.
* Python `datetime.timedelta` values are modelled as `Int` microseconds
  (the normalized resolution of `timedelta`).
* Python `float` durations (rate-limit delays, progress percentages) are
  modelled as `Rat`; the arithmetic the code performs on them is exact at
  the scales involved.
* Fallible Python code (functions that `raise`) is modelled with `Except`.
* The remote language-model service (`Agent.run`) is modelled by a script
  `Nat → RunResult` giving the outcome of the n-th service call of an
  invocation; blocking effects (`time.sleep`, progress callbacks) are
  recorded in explicit traces.
-/

namespace BilingualSub

instance {ε α : Type} [DecidableEq ε] [DecidableEq α] : DecidableEq (Except ε α) :=
  fun a b =>
    match a, b with
    | .ok x, .ok y =>
      if h : x = y then isTrue (by rw [h]) else isFalse (by simp [h])
    | .error x, .error y =>
      if h : x = y then isTrue (by rw [h]) else isFalse (by simp [h])
    | .ok _, .error _ => isFalse (by simp)
    | .error _, .ok _ => isFalse (by simp)

def chars (s : String) : List Char := s.toList

/-- Python whitespace test (`str.strip`, `\s`), restricted to the ASCII
whitespace the program actually handles. -/
def isSpace (c : Char) : Bool := c.isWhitespace

/-- `text.strip()` on Python strings: drop leading and trailing whitespace. -/
def pyStrip (l : List Char) : List Char :=
  ((l.dropWhile isSpace).reverse.dropWhile isSpace).reverse

/-- Python `str.split(sep)` for a one-character separator: no collapsing of
adjacent separators, empty pieces preserved. -/
def splitChar (sep : Char) : List Char → List (List Char)
  | [] => [[]]
  | c :: rest =>
    let r := splitChar sep rest
    if c = sep then [] :: r
    else
      match r with
      | [] => [[c]]
      | h :: t => (c :: h) :: t

/-- Join pieces with a separator (inverse of `splitChar`). -/
def joinSep (sep : List Char) : List (List Char) → List Char
  | [] => []
  | [x] => x
  | x :: xs => x ++ sep ++ joinSep sep xs

/-- Decimal digit to character. -/
def digitChar (d : Nat) : Char :=
  match d with
  | 0 => '0' | 1 => '1' | 2 => '2' | 3 => '3' | 4 => '4'
  | 5 => '5' | 6 => '6' | 7 => '7' | 8 => '8' | _ => '9'

/-- Character to decimal digit (ASCII digits only, as produced by the
program's own serializers). -/
def charDigit (c : Char) : Option Nat :=
  if '0' ≤ c && c ≤ '9' then some (c.toNat - '0'.toNat) else none

def isDigitChar (c : Char) : Bool := (charDigit c).isSome

/-- Decimal representation, by structural recursion on a fuel bound (the
recursion depth is the digit count, below `n + 1`). -/
def natReprAux : Nat → Nat → List Char
  | 0, _ => []
  | fuel + 1, n =>
    if n < 10 then [digitChar n]
    else natReprAux fuel (n / 10) ++ [digitChar (n % 10)]

/-- Decimal representation of a natural number (Python `str(n)` for `n ≥ 0`). -/
def natRepr (n : Nat) : List Char := natReprAux (n + 1) n

/-- Decimal representation of an integer (Python `str(n)` / `f"{n}"`). -/
def intRepr (i : Int) : List Char :=
  if i < 0 then '-' :: natRepr i.natAbs else natRepr i.natAbs

/-- Value of a list of decimal digit characters. -/
def digitsVal (l : List Char) : Nat :=
  l.foldl (fun a c => a * 10 + ((charDigit c).getD 0)) 0

/-- Python `int(s)` on an already-stripped string: optional sign followed by
at least one digit (underscore digit grouping is not modelled; the program
never produces it). -/
def pyParseInt (l : List Char) : Except (List Char) Int :=
  let core : List Char → Bool → Except (List Char) Int := fun ds neg =>
    if ds ≠ [] ∧ ds.all isDigitChar then
      .ok (if neg then -(digitsVal ds : Int) else (digitsVal ds : Int))
    else .error (chars "invalid literal for int()")
  match l with
  | '-' :: rest => core rest true
  | '+' :: rest => core rest false
  | _ => core l false

/-! ## Subtitle domain model (`core/subtitle.py`)

`SubtitleEntry` carries a 1-based index, start/end offsets and text;
`timedelta` offsets are microsecond counts. -/

structure SubtitleEntry where
  index : Int
  start : Int
  stop : Int
  text : List Char
deriving DecidableEq, Repr, Inhabited

/-- `SubtitleEntry.__post_init__`: the constructor validation.  Returns the
entry or the `ValueError` message. -/
def mkSubtitleEntry (index : Int) (start stop : Int) (text : List Char) :
    Except (List Char) SubtitleEntry :=
  if start ≥ stop then .error (chars "Start time must be before end time")
  else if index < 1 then .error (chars "Index must be positive")
  else if pyStrip text = [] then
    .error (chars "Text cannot be empty or whitespace-only")
  else .ok ⟨index, start, stop, text⟩

/-- One entry passed `SubtitleEntry.__post_init__` (every Python
`SubtitleEntry` object satisfies this). -/
def validEntry (e : SubtitleEntry) : Bool :=
  decide (e.start < e.stop) && decide (1 ≤ e.index) && decide (pyStrip e.text ≠ [])

/-- `Subtitle.__post_init__`: non-empty, indices exactly 1..N in order, no
overlapping adjacent time ranges. -/
def validSubtitleList (entries : List SubtitleEntry) : Bool :=
  decide (entries ≠ []) &&
    (List.range entries.length).all
      (fun i => decide ((entries.getD i default).index = (i : Int) + 1)) &&
    (List.range (entries.length - 1)).all
      (fun i =>
        decide ((entries.getD i default).stop ≤ (entries.getD (i + 1) default).start))

/-- `Subtitle(entries=...)`: constructor validation, as an `Except`. -/
def checkSubtitle (entries : List SubtitleEntry) :
    Except (List Char) (List SubtitleEntry) :=
  if validSubtitleList entries then .ok entries
  else .error (chars "invalid subtitle structure")

/-! ## `core/merger.py` -/

/-- Loop body of `merge_subtitles`: zip originals with translations, build
each bilingual entry through the validating constructor. -/
def mergeZip : List SubtitleEntry → List SubtitleEntry →
    Except (List Char) (List SubtitleEntry)
  | [], [] => .ok []
  | o :: os, t :: ts => do
    let e ← mkSubtitleEntry o.index o.start o.stop (t.text ++ chars "\n" ++ o.text)
    let rest ← mergeZip os ts
    .ok (e :: rest)
  | _, _ => .error (chars "zip length mismatch")

/-- `merge_subtitles(original, translated)`: count check, then per-pair
bilingual entries `{translated}\n{original}` keeping the original's index
and timing. -/
def merge_subtitles (original translated : List SubtitleEntry) :
    Except (List Char) (List SubtitleEntry) :=
  if original.length ≠ translated.length then
    .error (chars "Entry count mismatch")
  else mergeZip original translated

/-- The bilingual entry `merge_subtitles` produces from one (original,
translated) pair. -/
def mergedEntry (o t : SubtitleEntry) : SubtitleEntry :=
  ⟨o.index, o.start, o.stop, t.text ++ chars "\n" ++ o.text⟩

/-! ## `core/transcriber.py` (language-code slice)

`transcribe_audio` line 102: `language = language.split("-")[0]` before the
service call; the transformed code is what the transcription service
receives. -/

/-- Python `language.split("-")` (one-character separator). -/
def pySplitDash (l : List Char) : List (List Char) := splitChar '-' l

/-- The language code `transcribe_audio` passes to the transcription
service: `language.split("-")[0]`. -/
def transcribe_request_language (language : List Char) : List Char :=
  (pySplitDash language).headD []

/-! ## `core/translator.py`

The remote model is a script `Nat → RunResult`: the outcome of the n-th
`translator.run(...)` call of the invocation (`exn` models the call raising,
`ok content` models a response whose `.content.strip() if content else ""`
is taken afterwards by the caller). -/

inductive RunResult where
  | exn
  | ok (content : List Char)
deriving DecidableEq, Repr

def Script : Type := Nat → RunResult

/-- Whitespace-run collapsing, by structural recursion on a fuel bound. -/
def compactRunsAux : Nat → List Char → List Char
  | 0, _ => []
  | _, [] => []
  | fuel + 1, c :: rest =>
    if isSpace c then ' ' :: compactRunsAux fuel (rest.dropWhile isSpace)
    else c :: compactRunsAux fuel rest

/-- `_compact_text`: collapse each whitespace run to one space, then strip. -/
def compactRuns (l : List Char) : List Char := compactRunsAux l.length l

def compactText (l : List Char) : List Char := pyStrip (compactRuns l)

/-- Python `str.rstrip()`. -/
def pyRStrip (l : List Char) : List Char := (l.reverse.dropWhile isSpace).reverse

/-- `_truncate_text`. -/
def truncateText (l : List Char) (maxChars : Nat) : List Char :=
  if l.length ≤ maxChars then l else pyRStrip (l.take maxChars) ++ chars "..."

/-- `_strip_number_prefix`: `re.sub(r"^\s*\d+\s*[.):．]\s*", "", text,
count=1)`. -/
def sepChars : List Char := ['.', ')', ':', '．']

def stripNumberPrefix (l : List Char) : List Char :=
  let r := l.dropWhile isSpace
  let ds := r.takeWhile isDigitChar
  if ds = [] then l
  else
    match (r.drop ds.length).dropWhile isSpace with
    | c :: rest => if c ∈ sepChars then rest.dropWhile isSpace else l
    | [] => l

/-! ### `_check_rate_limit` -/

/-- Python `needle in haystack` on strings. -/
def listInfix (needle hay : List Char) : Bool := decide (needle <:+: hay)

def rateLimitMarker : List Char := chars "rate_limit_exceeded"

/-- Match `re.search(r"try again in (?:(\d+)m)?(\d+(?:\.\d+)?)s", ...)` at one
position.  Greedy matching without further backtracking coincides with the
regex here because every `\d+` group is followed by a required non-digit. -/
def matchDelayAt (l : List Char) : Option Rat :=
  let lit := chars "try again in "
  if lit.isPrefixOf l then
    let r := l.drop lit.length
    let ds := r.takeWhile isDigitChar
    let minutes : Nat × List Char :=
      if ds ≠ [] ∧ (r.drop ds.length).headD ' ' = 'm' then
        (digitsVal ds, r.drop (ds.length + 1))
      else (0, r)
    let ss := (minutes.2).takeWhile isDigitChar
    if ss = [] then none
    else
      match (minutes.2).drop ss.length with
      | '.' :: r3 =>
        let fs := r3.takeWhile isDigitChar
        if fs ≠ [] ∧ (r3.drop fs.length).headD ' ' = 's' then
          some ((minutes.1 : Rat) * 60 + (digitsVal ss : Rat) +
            (digitsVal fs : Rat) / ((10 : Rat) ^ fs.length))
        else none
      | 's' :: _ => some ((minutes.1 : Rat) * 60 + (digitsVal ss : Rat))
      | _ => none
  else none

/-- Leftmost match of the retry-delay pattern (`re.search` scans every start
position). -/
def findDelay : List Char → Option Rat
  | [] => none
  | c :: rest =>
    match matchDelayAt (c :: rest) with
    | some d => some d
    | none => findDelay rest

/-- `_check_rate_limit(response_text)`: `some retry_after` when the response
carries the rate-limit marker (`RateLimitError` raised), `none` otherwise. -/
def checkRateLimit (s : List Char) : Option Rat :=
  if listInfix rateLimitMarker s then some ((findDelay s).getD 60) else none

/-! ### `_parse_batch_response` -/

/-- One line against `^\s*(\d+)\s*[.):．]\s*(.+)$`; the returned text is
`match.group(2).strip()`, which (after the regex's `\s*`/`(.+)` backtracking)
equals the stripped tail after the separator. -/
def parseResponseLine (l : List Char) : Option (Nat × List Char) :=
  let r := l.dropWhile isSpace
  let ds := r.takeWhile isDigitChar
  if ds = [] then none
  else
    match (r.drop ds.length).dropWhile isSpace with
    | c :: rest =>
      if c ∈ sepChars then
        if rest = [] then none else some (digitsVal ds, pyStrip rest)
      else none
    | [] => none

/-- Python `dict` insert: overwrite in place or append. -/
def upsert {α β : Type} [DecidableEq α] (k : α) (v : β) :
    List (α × β) → List (α × β)
  | [] => [(k, v)]
  | p :: t => if p.1 = k then (k, v) :: t else p :: upsert k v t

def lookupAssoc {α β : Type} [DecidableEq α] (k : α) (l : List (α × β)) :
    Option β :=
  (l.find? (fun p => p.1 = k)).map (fun p => p.2)

/-- Second phase of `_parse_batch_response`: read keys `1..expected` out of
the dict in order. -/
def collectTranslations (dict : List (Nat × List Char)) :
    List Nat → Except (List Char) (List (List Char))
  | [] => .ok []
  | i :: is =>
    match lookupAssoc i dict with
    | none => .error (chars "Missing translation for line " ++ natRepr i)
    | some t => do
      let rest ← collectTranslations dict is
      .ok (t :: rest)

def parseBatchResponse (s : List Char) (expected : Nat) :
    Except (List Char) (List (List Char)) :=
  let lines := splitChar '\n' (pyStrip s)
  let dict := lines.foldl
    (fun d line =>
      match parseResponseLine line with
      | some (n, t) => upsert n t d
      | none => d) []
  if dict.length ≠ expected then
    .error (chars "Expected " ++ natRepr expected ++ chars " translations, got " ++
      natRepr dict.length)
  else collectTranslations dict ((List.range expected).map (fun i => i + 1))

/-! ### `_translate_batch` prompt -/

def contextSection (context : Option (List (List Char × List Char))) : List Char :=
  match context with
  | none => []
  | some pairs =>
    -- Python truthiness: an empty context list also yields no section
    if pairs = [] then []
    else
      chars "【上文參考】\n" ++
        joinSep (chars "\n")
          (pairs.map (fun p => chars "- " ++ p.1 ++ chars " → " ++ p.2)) ++
        chars "\n\n"

def numberedLines (batch : List SubtitleEntry) : List Char :=
  joinSep (chars "\n")
    ((List.range batch.length).map
      (fun i => natRepr (i + 1) ++ chars ". " ++ (batch.getD i default).text))

def lookaheadSection (lookahead : Option (List SubtitleEntry)) : List Char :=
  match lookahead with
  | none => []
  | some las =>
    if las = [] then []
    else
      chars "\n\n【下文參考（僅供理解語意，不需翻譯）】\n" ++
        joinSep (chars "\n") (las.map (fun e => chars "- " ++ e.text))

def mkBatchPrompt (batch : List SubtitleEntry)
    (context : Option (List (List Char × List Char)))
    (lookahead : Option (List SubtitleEntry)) (src tgt : List Char) : List Char :=
  contextSection context ++
    chars "將以下編號字幕從" ++ src ++ chars "翻譯成" ++ tgt ++ chars "。\n" ++
    chars "只回傳編號翻譯，每行一條，編號與原文一致。\n\n" ++
    numberedLines batch ++
    lookaheadSection lookahead

/-! ### batch / fallback / retry interpreter -/

inductive BatchErr where
  | rateLimit (delay : Rat)
  | translationError (msg : List Char)
  | externalExn
deriving DecidableEq, Repr

/-- `_translate_batch` (response handling; prompt content does not influence
the scripted service). -/
def translateBatchCall (script : Script) (k : Nat) (batch : List SubtitleEntry) :
    Nat × Except BatchErr (List (List Char)) :=
  match script k with
  | .exn => (k + 1, .error .externalExn)
  | .ok content =>
    let text := pyStrip content
    (k + 1,
      if text = [] then .error (.translationError (chars "Empty batch translation response"))
      else
        match checkRateLimit text with
        | some d => .error (.rateLimit d)
        | none =>
          match parseBatchResponse text batch.length with
          | .error m => .error (.translationError m)
          | .ok ts => .ok ts)

/-- `_translate_one_by_one`: context-free per-entry calls; a raising call or
empty result is a hard `TranslationError`, a rate-limited response raises
`RateLimitError`. -/
def oneByOne (script : Script) (k : Nat) :
    List SubtitleEntry → Nat × Except BatchErr (List (List Char))
  | [] => (k, .ok [])
  | e :: es =>
    match script k with
    | .exn =>
      (k + 1, .error (.translationError
        (chars "Failed to translate entry " ++ intRepr e.index ++ chars ": " ++ e.text)))
    | .ok content =>
      let t := pyStrip content
      match checkRateLimit t with
      | some d => (k + 1, .error (.rateLimit d))
      | none =>
        if t = [] then
          (k + 1, .error (.translationError
            (chars "Empty or whitespace-only translation for entry " ++
              intRepr e.index ++ chars ": " ++ e.text)))
        else
          match oneByOne script (k + 1) es with
          | (k2, .ok rest) => (k2, .ok (t :: rest))
          | (k2, .error err) => (k2, .error err)

/-- One attempt of `translate_subtitle`'s inner `try`: batch mode first,
falling back to one-by-one on any non-rate-limit failure. -/
def attemptOnce (script : Script) (k : Nat) (batch : List SubtitleEntry) :
    Nat × Except BatchErr (List (List Char)) :=
  match translateBatchCall script k batch with
  | (k1, .ok ts) => (k1, .ok ts)
  | (k1, .error (.rateLimit d)) => (k1, .error (.rateLimit d))
  | (k1, .error _) => oneByOne script k1 batch

/-- The `for attempt in range(_MAX_RETRIES + 1)` loop of `translate_subtitle`
for one batch, with `fuel` the remaining attempts (`6` initially; the
`attempt < _MAX_RETRIES` test is `fuel ≥ 2` at the current attempt).  Returns
the next call counter, the recorded `time.sleep` durations and either the
batch's translations or the escaping `TranslationError` message. -/
def retryBatch (script : Script) (batch : List SubtitleEntry) (k : Nat) :
    Nat → Nat × List Rat × Except (List Char) (List (List Char))
  | 0 =>
    -- the `for ... else` clause (unreachable from a positive fuel)
    (k, [], .error (chars "Failed to translate entries " ++
      intRepr (batch.headD default).index ++ chars "-" ++
      intRepr (batch.getLastD default).index))
  | fuel + 1 =>
    match attemptOnce script k batch with
    | (k1, .ok ts) => (k1, [], .ok ts)
    | (k1, .error (.translationError m)) => (k1, [], .error m)
    | (k1, .error .externalExn) => (k1, [], .error (chars "unreachable"))
    | (k1, .error (.rateLimit d)) =>
      if 1 ≤ fuel then
        match retryBatch script batch k1 fuel with
        | (k2, sl, r) => (k2, d :: sl, r)
      else
        (k1, [], .error (chars "Rate limit exceeded after 5 retries for entries " ++
          intRepr (batch.headD default).index ++ chars "-" ++
          intRepr (batch.getLastD default).index))

structure BatchJob where
  batch : List SubtitleEntry
  context : Option (List (List Char × List Char))
  lookahead : Option (List SubtitleEntry)
  prompt : List Char
deriving DecidableEq, Repr, Inhabited

structure TransTrace where
  calls : Nat
  translated : List (List Char)
  jobs : List BatchJob
  progressCalls : List (Nat × Nat)
  sleeps : List Rat
deriving DecidableEq, Repr

def TransTrace.init : TransTrace := ⟨0, [], [], [], []⟩

/-- Batch, context window, lookahead and prompt computed by one iteration of
`translate_subtitle`'s loop at batch start `i`, reading already-available
translations from `translated`:
`batch = entries[i:i+10]`,
`context_start = max(0, i-3)`,
`context = [(entries[j].text, translated_texts[j]) for j in
[context_start, i)] if i > 0 else None`,
`lookahead = entries[i+10:min(i+13, len)] if i+10 < len else None`. -/
def loopJob (entries : List SubtitleEntry) (translated : List (List Char))
    (src tgt : List Char) (i : Nat) : BatchJob :=
  let batch := (entries.drop i).take 10
  -- context_start = max(0, i - _CONTEXT_SIZE): Nat subtraction truncates
  let ctxStart := i - 3
  let context :=
    if 0 < i then
      some ((List.range' ctxStart (i - ctxStart)).map
        (fun j => ((entries.getD j default).text, translated.getD j [])))
    else none
  let lookahead :=
    if i + 10 < entries.length then some ((entries.drop (i + 10)).take 3)
    else none
  ⟨batch, context, lookahead, mkBatchPrompt batch context lookahead src tgt⟩

/-- The `for i in range(0, len(entries), _BATCH_SIZE)` loop, with `fuel` the
remaining iteration count and `i` the current batch start. -/
def translateLoop (script : Script) (entries : List SubtitleEntry)
    (src tgt : List Char) :
    Nat → Nat → TransTrace → TransTrace × Option (List Char)
  | 0, _, st => (st, none)
  | fuel + 1, i, st =>
    let job : BatchJob := loopJob entries st.translated src tgt i
    let batch := job.batch
    match retryBatch script batch st.calls 6 with
    | (k1, sleeps, .error m) =>
      ({st with
          calls := k1
          jobs := st.jobs ++ [job]
          sleeps := st.sleeps ++ sleeps}, some m)
    | (k1, sleeps, .ok ts) =>
      let translated := st.translated ++ ts
      translateLoop script entries src tgt fuel (i + 10)
        {calls := k1
         translated := translated
         jobs := st.jobs ++ [job]
         progressCalls := st.progressCalls ++ [(translated.length, entries.length)]
         sleeps := st.sleeps ++ sleeps}

inductive TransErr where
  | translationError (msg : List Char)
  | valueError (msg : List Char)
deriving DecidableEq, Repr

/-- Final reconstruction: `SubtitleEntry(index=..., start=..., end=...,
text=text)` for each `zip(entries, translated_texts, strict=True)` pair. -/
def rebuildEntries : List SubtitleEntry → List (List Char) →
    Except (List Char) (List SubtitleEntry)
  | [], [] => .ok []
  | e :: es, t :: ts => do
    let e1 ← mkSubtitleEntry e.index e.start e.stop t
    let rest ← rebuildEntries es ts
    .ok (e1 :: rest)
  | _, _ => .error (chars "zip strict length mismatch")

/-- `translate_subtitle`: the full batch loop plus the final `Subtitle`
construction, returning the invocation trace and the outcome. -/
def translate_subtitle (script : Script) (entries : List SubtitleEntry)
    (src tgt : List Char) : TransTrace × Except TransErr (List SubtitleEntry) :=
  let numBatches := (entries.length + 10 - 1) / 10
  match translateLoop script entries src tgt numBatches 0 TransTrace.init with
  | (st, some m) => (st, .error (.translationError m))
  | (st, none) =>
    match rebuildEntries entries st.translated with
    | .error m => (st, .error (.valueError m))
    | .ok es =>
      match checkSubtitle es with
      | .error m => (st, .error (.valueError m))
      | .ok es1 => (st, .ok es1)

/-! ### `retranslate_entries` -/

structure RetranslateEntry where
  index : Int
  original : List Char
  translated : List Char
deriving DecidableEq, Repr, Inhabited

/-- De-duplication, by structural recursion on a fuel bound. -/
def pyDedupIntsAux : Nat → List Int → List Int
  | 0, _ => []
  | _, [] => []
  | fuel + 1, x :: xs => x :: pyDedupIntsAux fuel (xs.filter (fun y => y ≠ x))

/-- `list(dict.fromkeys(selected_indices))`: de-duplicate preserving the
first occurrence of each index. -/
def pyDedupInts (l : List Int) : List Int := pyDedupIntsAux l.length l

/-- `position_by_index = {entry.index: i for i, entry in enumerate(entries)}`
(later duplicates overwrite earlier ones). -/
def posByIndex (entries : List RetranslateEntry) : List (Int × Nat) :=
  (entries.enum.map (fun p => (p.2.index, p.1))).foldl
    (fun d p => upsert p.1 p.2 d) []

/-- One row of the partial-retranslation context blocks:
`f"- {entry.original} → {entry.translated or '(待翻譯)'}"`. -/
def retrRow (e : RetranslateEntry) : List Char :=
  chars "- " ++ e.original ++ chars " → " ++
    (if e.translated = [] then chars "(待翻譯)" else e.translated)

def retrPrompt (prevEntries nextEntries : List RetranslateEntry)
    (userCtx : List Char) (src tgt : List Char)
    (target : RetranslateEntry) : List Char :=
  let sections : List (List Char) :=
    (if prevEntries ≠ [] then
      [chars "【上文參考】\n" ++ joinSep (chars "\n") (prevEntries.map retrRow)]
     else []) ++
    (if nextEntries ≠ [] then
      [chars "【下文參考】\n" ++ joinSep (chars "\n") (nextEntries.map retrRow)]
     else []) ++
    (if userCtx ≠ [] then [chars "【使用者補充上下文】\n" ++ userCtx] else [])
  let promptSections := joinSep (chars "\n\n") sections
  (if promptSections ≠ [] then promptSections ++ chars "\n\n" else []) ++
    chars "請將以下字幕從" ++ src ++ chars "翻譯成" ++ tgt ++ chars "。\n" ++
    chars "只回傳單行翻譯內容，不要加編號、引號或任何說明。\n\n" ++
    chars "原文: " ++ target.original ++ chars "\n" ++
    chars "目前翻譯（可修正）: " ++
    (if target.translated = [] then chars "(空)" else target.translated)

inductive RetrErr where
  | valueErr (msg : List Char)
  | translationErr (msg : List Char)
  | externalExn
deriving DecidableEq, Repr

/-- Per-target `for attempt in range(_MAX_RETRIES + 1)` loop of
`retranslate_entries`. -/
def retrOneTarget (script : Script) (k : Nat) (targetIndex : Int) :
    Nat → Nat × List Rat × Except RetrErr (List Char)
  | 0 =>
    (k, [], .error (.translationErr
      (chars "Failed to re-translate entry " ++ intRepr targetIndex)))
  | fuel + 1 =>
    match script k with
    | .exn => (k + 1, [], .error .externalExn)
    | .ok content =>
      let text := pyStrip content
      if text = [] then
        (k + 1, [], .error (.translationErr
          (chars "Empty re-translation response for entry " ++ intRepr targetIndex)))
      else
        match checkRateLimit text with
        | some d =>
          if 1 ≤ fuel then
            match retrOneTarget script (k + 1) targetIndex fuel with
            | (k2, sl, r) => (k2, d :: sl, r)
          else
            (k + 1, [], .error (.translationErr
              (chars "Rate limit exceeded after 5 retries for entry " ++
                intRepr targetIndex)))
        | none =>
          let cleaned := pyStrip (stripNumberPrefix text)
          if cleaned = [] then
            (k + 1, [], .error (.translationErr
              (chars "Empty re-translation response for entry " ++ intRepr targetIndex)))
          else (k + 1, [], .ok cleaned)

structure RetrTrace where
  calls : Nat
  sleeps : List Rat
  prompts : List (List Char)
deriving DecidableEq, Repr

/-- The `for target_index in ordered_indices` loop. -/
def retrGo (script : Script) (entries : List RetranslateEntry)
    (pos : List (Int × Nat)) (uctx src tgt : List Char) :
    List Int → Nat → List Rat → List (List Char) → List (Int × List Char) →
    RetrTrace × Except RetrErr (List (Int × List Char))
  | [], k, sleeps, prompts, acc => (⟨k, sleeps, prompts⟩, .ok acc)
  | t :: ts, k, sleeps, prompts, acc =>
    let position := (lookupAssoc t pos).getD 0
    let targetEntry := entries.getD position default
    let prevEntries := (entries.take position).drop (position - 2)
    let nextEntries := (entries.drop (position + 1)).take 2
    let prompt := retrPrompt prevEntries nextEntries uctx src tgt targetEntry
    match retrOneTarget script k t 6 with
    | (k1, sl, .ok text) =>
      retrGo script entries pos uctx src tgt ts k1 (sleeps ++ sl)
        (prompts ++ [prompt]) (acc ++ [(t, text)])
    | (k1, sl, .error e) =>
      (⟨k1, sleeps ++ sl, prompts ++ [prompt]⟩, .error e)

/-- `retranslate_entries`: payload validation up front (no service call), then
one independent retry loop per de-duplicated target index. -/
def retranslate_entries (script : Script) (entries : List RetranslateEntry)
    (selected : List Int) (src tgt userContext : List Char) :
    RetrTrace × Except RetrErr (List (Int × List Char)) :=
  if entries = [] then
    (⟨0, [], []⟩, .error (.valueErr (chars "entries cannot be empty")))
  else if selected = [] then
    (⟨0, [], []⟩, .error (.valueErr (chars "selected_indices cannot be empty")))
  else
    let ordered := pyDedupInts selected
    let pos := posByIndex entries
    let missing := ordered.filter (fun idx => lookupAssoc idx pos = none)
    if missing ≠ [] then
      (⟨0, [], []⟩, .error (.valueErr (chars "selected_indices not found")))
    else
      retrGo script entries pos (compactText userContext) src tgt ordered 0 [] [] []

/-! ## `formats/srt.py` -/

/-- Zero-padding to a minimum width, Python `f"{n:0wd}"` (the sign occupies
one column of the width). -/
def fmtPad (w : Nat) (i : Int) : List Char :=
  if i < 0 then
    '-' :: (List.replicate ((w - 1) - (natRepr i.natAbs).length) '0' ++ natRepr i.natAbs)
  else
    List.replicate (w - (natRepr i.natAbs).length) '0' ++ natRepr i.natAbs

/-- One `HH:MM:SS,mmm` timestamp of `serialize_srt`, from microseconds:
`int(td.total_seconds())` truncates toward zero, `//` and `%` are Python
floor operations, `td.microseconds` is the normalized component in
`[0, 10^6)`. -/
def srtTimestamp (us : Int) : List Char :=
  let total := Int.tdiv us 1000000
  let hours := Int.fdiv total 3600
  let minutes := Int.fdiv (Int.emod total 3600) 60
  let seconds := Int.emod total 60
  let millis := Int.fdiv (Int.emod us 1000000) 1000
  fmtPad 2 hours ++ chars ":" ++ fmtPad 2 minutes ++ chars ":" ++ fmtPad 2 seconds ++
    chars "," ++ fmtPad 3 millis

def srtBlock (e : SubtitleEntry) : List Char :=
  intRepr e.index ++ chars "\n" ++
    srtTimestamp e.start ++ chars " --> " ++ srtTimestamp e.stop ++ chars "\n" ++
    e.text

/-- `serialize_srt`. -/
def serialize_srt (entries : List SubtitleEntry) : List Char :=
  joinSep (chars "\n\n") (entries.map srtBlock) ++ chars "\n"

/-- Blank-line splitting, by structural recursion on a fuel bound. -/
def splitBlocksAux : Nat → List Char → List (List Char)
  | 0, _ => [[]]
  | _, [] => [[]]
  | fuel + 1, '\n' :: '\n' :: rest =>
    [] :: splitBlocksAux fuel (rest.dropWhile (fun c => c = '\n'))
  | fuel + 1, c :: rest =>
    match splitBlocksAux fuel rest with
    | [] => [[c]]
    | h :: t => (c :: h) :: t

/-- `re.split(r"\n\n+", content)`: split at each maximal run of two or more
newlines. -/
def splitBlocks (l : List Char) : List (List Char) := splitBlocksAux l.length l

def readDigit2 (l : List Char) : Option (Nat × List Char) :=
  match l with
  | a :: b :: rest => do
    let x ← charDigit a
    let y ← charDigit b
    some (x * 10 + y, rest)
  | _ => none

def readDigit3 (l : List Char) : Option (Nat × List Char) :=
  match l with
  | a :: b :: c :: rest => do
    let x ← charDigit a
    let y ← charDigit b
    let z ← charDigit c
    some (x * 100 + y * 10 + z, rest)
  | _ => none

def expectChar (c : Char) (l : List Char) : Option (List Char) :=
  match l with
  | x :: rest => if x = c then some rest else none
  | [] => none

/-- One `HH:MM:SS,mmm` group of the timing regex, yielding microseconds. -/
def readTimestamp (l : List Char) : Option (Int × List Char) := do
  let (h, l) ← readDigit2 l
  let l ← expectChar ':' l
  let (m, l) ← readDigit2 l
  let l ← expectChar ':' l
  let (s, l) ← readDigit2 l
  let l ← expectChar ',' l
  let (ms, l) ← readDigit3 l
  some ((((h * 3600 + m * 60 + s) * 1000 + ms : Nat) : Int) * 1000, l)

/-- `re.match` of the timing pattern
`(\d{2}):(\d{2}):(\d{2}),(\d{3})\s*-->\s*(\d{2}):(\d{2}):(\d{2}),(\d{3})`
(prefix match; trailing content permitted). -/
def parseTimingLine (l : List Char) : Option (Int × Int) := do
  let (start, l) ← readTimestamp l
  let l := l.dropWhile isSpace
  let l ← expectChar '-' l
  let l ← expectChar '-' l
  let l ← expectChar '>' l
  let l := l.dropWhile isSpace
  let (stop, _) ← readTimestamp l
  some (start, stop)

/-- One block of `parse_srt`: at least 3 lines, integer index, timing line,
remaining lines re-joined as the (stripped) text, then the entry
constructor. -/
def parseSrtBlock (block : List Char) : Except (List Char) SubtitleEntry := do
  let lines := splitChar '\n' (pyStrip block)
  if lines.length < 3 then
    .error (chars "Invalid format, expected at least 3 lines")
  else
    let index ←
      match pyParseInt (pyStrip (lines.getD 0 [])) with
      | .error _ => .error (chars "Invalid index, must be integer")
      | .ok i => .ok i
    match parseTimingLine (pyStrip (lines.getD 1 [])) with
    | none => .error (chars "Invalid timing format")
    | some (start, stop) =>
      let text := pyStrip (joinSep (chars "\n") (lines.drop 2))
      mkSubtitleEntry index start stop text

def parseSrtBlocks : List (List Char) → Except (List Char) (List SubtitleEntry)
  | [] => .ok []
  | b :: bs => do
    let e ← parseSrtBlock b
    let rest ← parseSrtBlocks bs
    .ok (e :: rest)

/-- `parse_srt`. -/
def parse_srt (content : List Char) : Except (List Char) (List SubtitleEntry) := do
  if pyStrip content = [] then .error (chars "Content cannot be empty")
  else
    let blocks := splitBlocks (pyStrip content)
    let entries ← parseSrtBlocks blocks
    if entries = [] then .error (chars "No valid subtitle entries found")
    else
      match checkSubtitle entries with
      | .error m => .error (chars "Invalid subtitle structure: " ++ m)
      | .ok es => .ok es

/-! ## `formats/ass.py` -/

/-- `_escape_ass_text`, character-wise (the source's chained `str.replace`
calls touch pairwise-distinct characters, so they equal one pass). -/
def escapeAssChar (c : Char) : List Char :=
  if c = '\\' then ['\\', '\\']
  else if c = '\x7b' then ['\\', '\x7b']
  else if c = '\x7d' then ['\\', '\x7d']
  else if c = '\n' then ['\\', 'N']
  else [c]

def escapeAssText (l : List Char) : List Char := (l.map escapeAssChar).flatten

/-- `_format_ass_time`: `H:MM:SS.cc` (hours unpadded, centiseconds). -/
def formatAssTime (us : Int) : List Char :=
  let total := Int.tdiv us 1000000
  let hours := Int.fdiv total 3600
  let minutes := Int.fdiv (Int.emod total 3600) 60
  let seconds := Int.emod total 60
  let centis := Int.fdiv (Int.emod us 1000000) 10000
  intRepr hours ++ chars ":" ++ fmtPad 2 minutes ++ chars ":" ++ fmtPad 2 seconds ++
    chars "." ++ fmtPad 2 centis

def assStyleFormat : List Char :=
  chars "Format: Name, Fontname, Fontsize, PrimaryColour, SecondaryColour, OutlineColour, BackColour, Bold, Italic, Underline, StrikeOut, ScaleX, ScaleY, Spacing, Angle, BorderStyle, Outline, Shadow, Alignment, MarginL, MarginR, MarginV, Encoding"

def assStyleParams : List Char :=
  chars "&H0000FFFF,&H0000FFFF,&H00000000,&H00000000,0,0,0,0,100,100,0,0"

def assTransStyle : List Char :=
  chars "Style: Translated,Arial,20," ++ assStyleParams ++ chars ",1,2,0,2,30,30,60,1"

def assOrigStyle : List Char :=
  chars "Style: Original,Arial,14," ++ assStyleParams ++ chars ",1,2,0,2,30,30,20,1"

def assEventFormat : List Char :=
  chars "Format: Layer, Start, End, Style, Name, MarginL, MarginR, MarginV, Effect, Text"

def assHeader : List Char :=
  chars "[Script Info]\nTitle: Bilingual Subtitle\nScriptType: v4.00+\nPlayResX: 1920\nPlayResY: 1080\n\n[V4+ Styles]\n" ++
    assStyleFormat ++ chars "\n" ++ assTransStyle ++ chars "\n" ++ assOrigStyle ++
    chars "\n\n[Events]\n" ++ assEventFormat ++ chars "\n"

def assDialoguePair (origEntry transEntry : SubtitleEntry) : List (List Char) :=
  let startTime := formatAssTime origEntry.start
  let endTime := formatAssTime origEntry.stop
  [chars "Dialogue: 0," ++ startTime ++ chars "," ++ endTime ++
     chars ",Translated,,0,0,0,," ++ escapeAssText transEntry.text,
   chars "Dialogue: 0," ++ startTime ++ chars "," ++ endTime ++
     chars ",Original,,0,0,0,," ++ escapeAssText origEntry.text]

/-- `serialize_bilingual_ass` (the `video_width`/`video_height` parameters are
accepted but unused by the source). -/
def serialize_bilingual_ass (original translated : List SubtitleEntry) :
    Except (List Char) (List Char) :=
  if original.length ≠ translated.length then
    .error (chars "Original and translated subtitles must have same number of entries")
  else
    .ok (assHeader ++
      joinSep (chars "\n")
        ((original.zip translated).map (fun p => assDialoguePair p.1 p.2)).flatten ++
      chars "\n")

/-! ## `api/constants.py`, `api/jobs.py`, `api/errors.py` -/

inductive JobStatus where
  | pending | downloading | downloadComplete | transcribing | translating
  | merging | burning | completed | failed
deriving DecidableEq, Repr

inductive FileType where
  | srt | ass | video | audio | sourceVideo
deriving DecidableEq, Repr

/-- SSE events with the payload fields the program puts in `data`. -/
inductive Event where
  | progress (status : JobStatus) (pct : Rat) (currentStep message : List Char)
  | downloadComplete
  | complete
  | error (code message detail : List Char)
  | ping
deriving DecidableEq, Repr

/-- The `Job` record (the fields of `api/jobs.py` plus the request fields the
orchestrator and routes read); `event_queue` is the append-only outbox. -/
structure Job where
  id : List Char
  youtubeUrl : List Char
  sourceLang : List Char
  targetLang : List Char
  localVideoPath : Option (List Char)
  startTime : Option Rat
  endTime : Option Rat
  status : JobStatus
  progress : Rat
  currentStep : Option (List Char)
  errorCode : Option (List Char)
  errorMessage : Option (List Char)
  errorDetail : Option (List Char)
  outputFiles : List (FileType × List Char)
  eventQueue : List Event
deriving DecidableEq, Repr

/-- The exception kinds reachable at the orchestrator boundary, with their
`str(exc)` payloads.  `rateLimitError` is a subclass of `translationError`;
`pipelineError` is the api-layer `PipelineError(code, message, detail)`. -/
inductive PyExc where
  | downloadError (msg : List Char)
  | transcriptionError (msg : List Char)
  | translationError (msg : List Char)
  | rateLimitError (msg : List Char)
  | ffmpegError (msg : List Char)
  | valueError (msg : List Char)
  | srtParseError (msg : List Char)
  | keyError (msg : List Char)
  | pipelineError (code msg : List Char) (detail : Option (List Char))
  | otherError (msg : List Char)
deriving DecidableEq, Repr

def PyExc.str : PyExc → List Char
  | .downloadError m | .transcriptionError m | .translationError m
  | .rateLimitError m | .ffmpegError m | .valueError m | .srtParseError m
  | .keyError m | .otherError m => m
  | .pipelineError _ m _ => m

def PyExc.isPipelineError : PyExc → Bool
  | .pipelineError .. => true
  | _ => false

/-- The keys of `_ERROR_MAP` (exception classes used in `isinstance` tests). -/
inductive ErrKey where
  | download | transcription | translation | ffmpeg | value
deriving DecidableEq, Repr

/-- `isinstance(exc, exc_type)` over the program's exception hierarchy. -/
def pyIsinstance (e : PyExc) : ErrKey → Bool
  | .download => match e with | .downloadError _ => true | _ => false
  | .transcription => match e with | .transcriptionError _ => true | _ => false
  | .translation =>
    match e with
    | .translationError _ => true
    | .rateLimitError _ => true
    | _ => false
  | .ffmpeg => match e with | .ffmpegError _ => true | _ => false
  | .value => match e with | .valueError _ => true | _ => false

/-- `_ERROR_MAP`, in insertion (scan) order. -/
def errorMap : List (ErrKey × (List Char × List Char)) :=
  [(.download, (chars "download_failed", chars "Failed to download video")),
   (.transcription, (chars "transcription_failed", chars "Failed to transcribe audio")),
   (.translation, (chars "translation_failed", chars "Failed to translate subtitles")),
   (.ffmpeg, (chars "burn_failed", chars "Failed to burn subtitles into video")),
   (.value, (chars "invalid_input", chars "Invalid input"))]

/-- `_to_pipeline_error`: first matching row of the ordered table, otherwise
the generic internal code; the detail is `str(exc)`. -/
def toPipelineError (e : PyExc) : List Char × List Char × List Char :=
  match errorMap.find? (fun p => pyIsinstance e p.1) with
  | some row => (row.2.1, row.2.2, e.str)
  | none => (chars "pipeline_failed", chars "Unexpected pipeline error", e.str)

/-! ## `api/pipeline.py` -/

def sendProgress (j : Job) (status : JobStatus) (pct : Rat)
    (step message : List Char) : Job :=
  {j with
    status := status
    progress := pct
    currentStep := some step
    eventQueue := j.eventQueue ++ [.progress status pct step message]}

def sendError (j : Job) (code message detail : List Char) : Job :=
  {j with
    status := .failed
    errorCode := some code
    errorMessage := some message
    errorDetail := some detail
    eventQueue := j.eventQueue ++ [.error code message detail]}

def sendComplete (j : Job) : Job :=
  {j with
    status := .completed
    progress := 100
    eventQueue := j.eventQueue ++ [.complete]}

structure VideoMetadata where
  title : List Char
  duration : Rat
  width : Nat
  height : Nat
  fps : Rat
deriving DecidableEq, Repr

/-- Outcomes of the external collaborators invoked (through
`asyncio.to_thread`) by one orchestrator run; `translateProgress` is the
sequence of `(completed, total)` progress-callback invocations the translate
stage performs before resolving. -/
structure PipelineStages where
  downloadResult : Except PyExc VideoMetadata
  metadataResult : Except PyExc VideoMetadata
  trimResult : Except PyExc Unit
  extractAudioResult : Except PyExc Unit
  transcribeResult : Except PyExc (List SubtitleEntry)
  translateProgress : List (Nat × Nat)
  translateResult : Except PyExc (List SubtitleEntry)
  burnResult : Except PyExc Unit

/-- `_make_translate_progress_cb`: one progress-callback invocation. -/
def translateProgressCb (j : Job) (completed total : Nat) : Job :=
  let pct : Rat := if 0 < total then 50 + ((completed : Rat) / (total : Rat)) * 20 else 50
  sendProgress j .translating pct (chars "translate")
    (chars "Translating subtitles (" ++ natRepr completed ++ chars "/" ++
      natRepr total ++ chars ")")

/-- `_acquire_video`. -/
def acquireVideo (j0 : Job) (s : PipelineStages) : Job × Except PyExc VideoMetadata :=
  match j0.localVideoPath with
  | some _ =>
    (sendProgress j0 .downloading 5 (chars "upload") (chars "Processing uploaded file"),
     s.metadataResult)
  | none =>
    (sendProgress j0 .downloading 0 (chars "download") (chars "Downloading video"),
     s.downloadResult)

/-- `_trim_if_needed`. -/
def trimIfNeeded (j : Job) (s : PipelineStages) : Job × Except PyExc Unit :=
  if j.startTime = none ∧ j.endTime = none then (j, .ok ())
  else
    (sendProgress j .downloading 12 (chars "trim") (chars "Trimming video"),
     s.trimResult)

/-- `_extract_audio_step` (records the audio output file on success). -/
def extractAudioStep (j : Job) (s : PipelineStages) : Job × Except PyExc Unit :=
  let j1 := sendProgress j .downloading 15 (chars "extract_audio") (chars "Extracting audio")
  match s.extractAudioResult with
  | .error e => (j1, .error e)
  | .ok _ =>
    ({j1 with outputFiles := upsert .audio (chars "audio.mp3") j1.outputFiles}, .ok ())

/-- The `try` block of `run_pipeline`: the staged body, returning the updated
job and the exception that escaped the body, if any. -/
def runPipelineBody (j0 : Job) (s : PipelineStages) : Job × Option PyExc :=
  match acquireVideo j0 s with
  | (j, .error e) => (j, some e)
  | (j, .ok _metadata) =>
    match trimIfNeeded j s with
    | (j1, .error e) => (j1, some e)
    | (j1, .ok _) =>
      match extractAudioStep j1 s with
      | (j2, .error e) => (j2, some e)
      | (j2, .ok _) =>
        let j3 := sendProgress j2 .transcribing 20 (chars "transcribe")
          (chars "Transcribing audio")
        match s.transcribeResult with
        | .error e => (j3, some e)
        | .ok originalSub =>
          let j4 := sendProgress j3 .translating 50 (chars "translate")
            (chars "Translating subtitles")
          let j4 := s.translateProgress.foldl
            (fun jj p => translateProgressCb jj p.1 p.2) j4
          match s.translateResult with
          | .error e => (j4, some e)
          | .ok translatedSub =>
            let j5 := sendProgress j4 .merging 70 (chars "merge")
              (chars "Merging bilingual subtitles")
            match merge_subtitles originalSub translatedSub with
            | .error m => (j5, some (.valueError m))
            | .ok mergedEntries =>
              match checkSubtitle mergedEntries with
              | .error m => (j5, some (.valueError m))
              | .ok mergedSub =>
                let _srtContent := serialize_srt mergedSub
                let j6 := {j5 with
                  outputFiles := upsert .srt (chars "subtitle.srt") j5.outputFiles}
                match serialize_bilingual_ass originalSub translatedSub with
                | .error m => (j6, some (.valueError m))
                | .ok _assContent =>
                  let j7 := {j6 with
                    outputFiles := upsert .ass (chars "subtitle.ass") j6.outputFiles}
                  let j8 := {j7 with
                    outputFiles := upsert .sourceVideo (chars "video.mp4") j7.outputFiles}
                  (sendComplete j8, none)

/-- `run_pipeline`: the body under
`except PipelineError: raise` / `except Exception: map and emit error`. -/
def run_pipeline (j0 : Job) (s : PipelineStages) : Job × Option PyExc :=
  match runPipelineBody j0 s with
  | (j1, none) => (j1, none)
  | (j1, some e) =>
    if e.isPipelineError then (j1, some e)
    else
      let m := toPipelineError e
      (sendError j1 m.1 m.2.1 m.2.2, none)

/-- The `try` block of `run_burn`: look up the stored source video
(`KeyError` when absent), burn, store the output video, complete. -/
def runBurnBody (j0 : Job) (s : PipelineStages) : Job × Option PyExc :=
  match lookupAssoc FileType.sourceVideo j0.outputFiles with
  | none => (j0, some (.keyError (chars "source_video")))
  | some _ =>
    let j := sendProgress j0 .burning 50 (chars "burn") (chars "Burning subtitles")
    match s.burnResult with
    | .error e => (j, some e)
    | .ok _ =>
      (sendComplete {j with outputFiles := upsert .video (chars "output.mp4") j.outputFiles},
       none)

/-- `run_burn`: the body under a catch-all `except Exception` that maps and
records the error; nothing is re-raised. -/
def run_burn (j0 : Job) (_srtContent : List Char) (s : PipelineStages) :
    Job × Option PyExc :=
  match runBurnBody j0 s with
  | (j1, none) => (j1, none)
  | (j1, some e) =>
    let m := toPipelineError e
    (sendError j1 m.1 m.2.1 m.2.2, none)

/-- Modelled from the spec: `run_download`, the split acquire-only entry
point.  It is imported by `api/routes.py` and exercised by the unit tests but
its definition is not among the sources; per §4.1/§4.2 it runs acquisition
(fetch/trim/extract audio), transitions the job to `download_complete` and
emits a non-terminal `download_complete` event, and like every orchestrator
entry point converts an escaping exception to `failed` instead of raising.
This is its acquisition body. -/
def runDownloadBody (j0 : Job) (s : PipelineStages) : Job × Option PyExc :=
  match acquireVideo j0 s with
  | (j, .error e) => (j, some e)
  | (j, .ok _metadata) =>
    match trimIfNeeded j s with
    | (j1, .error e) => (j1, some e)
    | (j1, .ok _) =>
      match extractAudioStep j1 s with
      | (j2, .error e) => (j2, some e)
      | (j2, .ok _) =>
        ({j2 with
            status := .downloadComplete
            eventQueue := j2.eventQueue ++ [.downloadComplete]}, none)

/-- Modelled from the spec: `run_download`'s outer exception boundary —
"an orchestrator invocation that raises is always caught and converted to
`failed`" (§4.1). -/
def run_download (j0 : Job) (s : PipelineStages) : Job × Option PyExc :=
  match runDownloadBody j0 s with
  | (j1, none) => (j1, none)
  | (j1, some e) =>
    let m := toPipelineError e
    (sendError j1 m.1 m.2.1 m.2.2, none)

/-! ## `api/routes.py` -/

/-- The terminal-event test of the SSE generator (`job_events`): streaming
stops after `complete` or `error`; `download_complete` does not close the
stream. -/
def isTerminalEvent : Event → Bool
  | .complete => true
  | .error .. => true
  | _ => false

inductive BurnOutcome where
  | rejectedNotComplete
  | rejectedAlreadyBurning
  | accepted
deriving DecidableEq, Repr

/-- The `burn_job` route handler: reject without touching the job when the
pipeline is not complete or a burn is already in flight; otherwise set
status, reset progress and replace the outbox with a fresh queue before
`run_burn` is started with the mutated job. -/
def burn_job (j : Job) : Job × BurnOutcome :=
  if lookupAssoc FileType.sourceVideo j.outputFiles = none then
    (j, .rejectedNotComplete)
  else if j.status = .burning then
    (j, .rejectedAlreadyBurning)
  else
    ({j with status := .burning, progress := 0, eventQueue := []}, .accepted)

/-! ## Round-trip side conditions and concrete instances -/

/-- The entry's text contains no two consecutive newlines (no blank line). -/
def noDoubleNewline : List Char → Bool
  | [] => true
  | [_] => true
  | a :: b :: t => !(a = '\n' && b = '\n') && noDoubleNewline (b :: t)

/-- Conditions under which the SRT serializer loses no information: offsets
are non-negative whole milliseconds below 100 hours, and the text is equal to
its own stripped form with no blank line inside. -/
def roundTrippable (e : SubtitleEntry) : Bool :=
  decide (0 ≤ e.start) && decide (Int.emod e.start 1000 = 0) &&
    decide (e.start < 360000000000) &&
    decide (0 ≤ e.stop) && decide (Int.emod e.stop 1000 = 0) &&
    decide (e.stop < 360000000000) &&
    decide (pyStrip e.text = e.text) && noDoubleNewline e.text

/-- A valid subtitle entry whose text contains a blank line. -/
def cexBlankLineEntry : SubtitleEntry := ⟨1, 0, 1000000, chars "a\n\nb"⟩

/-- A two-entry subtitle satisfying every round-trip side condition. -/
def rtEntries : List SubtitleEntry :=
  [⟨1, 0, 1000000, chars "hello"⟩, ⟨2, 1500000, 2500000, chars "two\nlines"⟩]

/-! ## Concrete jobs, stages and scripts used in scenario conjuncts and
witnesses -/

def jobBase : Job :=
  {id := chars "j1", youtubeUrl := chars "u", sourceLang := chars "en",
   targetLang := chars "zh-TW", localVideoPath := none, startTime := none,
   endTime := none, status := .pending, progress := 0, currentStep := none,
   errorCode := none, errorMessage := none, errorDetail := none,
   outputFiles := [], eventQueue := []}

def mdOk : VideoMetadata := ⟨chars "title", 10, 1920, 1080, 30⟩

def subOrigOne : List SubtitleEntry := [⟨1, 0, 1000000, chars "hello"⟩]

def subTransOne : List SubtitleEntry := [⟨1, 0, 1000000, chars "nihao"⟩]

def stagesOk : PipelineStages :=
  {downloadResult := .ok mdOk, metadataResult := .ok mdOk, trimResult := .ok (),
   extractAudioResult := .ok (), transcribeResult := .ok subOrigOne,
   translateProgress := [(1, 1)], translateResult := .ok subTransOne,
   burnResult := .ok ()}

/-- Stages whose acquisition step raises a `PipelineError`. -/
def stagesRaisePE : PipelineStages :=
  {stagesOk with
    downloadResult := .error (.pipelineError (chars "boom") (chars "Boom") none)}

/-- Stages whose acquisition step raises a `DownloadError`. -/
def stagesRaiseDL : PipelineStages :=
  {stagesOk with downloadResult := .error (.downloadError (chars "404"))}

def jobBurningNow : Job :=
  {jobBase with
    status := .burning
    progress := 42
    outputFiles := [(.sourceVideo, chars "video.mp4")]
    eventQueue := [.complete]}

def jobReadyToBurn : Job :=
  {jobBase with
    status := .completed
    outputFiles := [(.sourceVideo, chars "video.mp4")]
    eventQueue := [.complete]}

/-- `n` subtitle entries with half-second durations and distinct texts. -/
def mkEntries (n : Nat) : List SubtitleEntry :=
  (List.range n).map (fun i =>
    {index := Int.ofNat i + 1, start := Int.ofNat i * 1000000,
     stop := Int.ofNat i * 1000000 + 500000, text := chars "t" ++ natRepr (i + 1)})

/-- A well-formed numbered batch response with `n` lines. -/
def mkResp (n : Nat) : List Char :=
  joinSep (chars "\n")
    ((List.range n).map (fun i => natRepr (i + 1) ++ chars ". x" ++ natRepr (i + 1)))

/-- A service script answering every batch of the 25-entry scenario
correctly. -/
def script25 : Script := fun k => .ok (if k < 2 then mkResp 10 else mkResp 5)

/-- A service script that is rate-limited on every call; the response carries
no parsable delay, so the default 60-second delay applies. -/
def scriptRL : Script :=
  fun _ => .ok (chars "rate_limit_exceeded")

def rlDelay : Rat := 60

/-- A script whose first response is unparsable and whose later responses are
plain translations. -/
def scriptFallback : Script :=
  fun k => if k = 0 then .ok (chars "garbage") else .ok (chars "ok" ++ natRepr k)

def retrRowsW : List RetranslateEntry :=
  [⟨1, chars "a", chars "x"⟩, ⟨2, chars "b", chars ""⟩, ⟨5, chars "c", chars "y"⟩]

def scriptNice : Script := fun _ => .ok (chars "nice")

/-- Whether a `translate_subtitle` outcome is the batch loop's escaping
`TranslationError` (as opposed to success or a constructor `ValueError`). -/
def isTranslationError : Except TransErr (List SubtitleEntry) → Bool
  | .error (.translationError _) => true
  | _ => false

/-! # Theorems -/

/-! ## Fuel-stability and unfolding lemmas for the fuel-based recursions -/

lemma natReprAux_fuel_eq : ∀ f1 : Nat, ∀ f2 n : Nat, n < f1 → n < f2 →
    natReprAux f1 n = natReprAux f2 n := by
  intro f1
  induction f1 with
  | zero => intro f2 n h1; omega
  | succ f ih =>
    intro f2 n h1 h2
    cases f2 with
    | zero => omega
    | succ f2' =>
      simp only [natReprAux]
      by_cases h : n < 10
      · simp [h]
      · have hd : n / 10 < n := Nat.div_lt_self (by omega) (by omega)
        rw [if_neg h, if_neg h, ih f2' (n / 10) (by omega) (by omega)]

lemma natRepr_eq (n : Nat) :
    natRepr n = if n < 10 then [digitChar n]
      else natRepr (n / 10) ++ [digitChar (n % 10)] := by
  unfold natRepr
  by_cases h : n < 10
  · simp [natReprAux, h]
  · have hd : n / 10 < n := Nat.div_lt_self (by omega) (by omega)
    conv_lhs => rw [natReprAux]
    rw [if_neg h, if_neg h,
      natReprAux_fuel_eq n (n / 10 + 1) (n / 10) (by omega) (by omega)]

lemma pyDedupIntsAux_fuel_eq : ∀ f1 : Nat, ∀ f2 : Nat, ∀ l : List Int,
    l.length ≤ f1 → l.length ≤ f2 →
    pyDedupIntsAux f1 l = pyDedupIntsAux f2 l := by
  intro f1
  induction f1 with
  | zero =>
    intro f2 l h1 h2
    have : l = [] := List.length_eq_zero.mp (by omega)
    subst this
    cases f2 <;> rfl
  | succ f ih =>
    intro f2 l h1 h2
    cases l with
    | nil => cases f2 <;> rfl
    | cons a xs =>
      cases f2 with
      | zero => simp at h2
      | succ f2' =>
        simp only [pyDedupIntsAux]
        rw [ih f2' (xs.filter (fun y => y ≠ a))
          (le_trans (xs.length_filter_le _) (by simpa using h1))
          (le_trans (xs.length_filter_le _) (by simpa using h2))]

lemma pyDedupInts_cons (a : Int) (xs : List Int) :
    pyDedupInts (a :: xs) = a :: pyDedupInts (xs.filter (fun y => y ≠ a)) := by
  unfold pyDedupInts
  simp only [List.length_cons, pyDedupIntsAux]
  rw [pyDedupIntsAux_fuel_eq xs.length (xs.filter (fun y => y ≠ a)).length _
    (xs.length_filter_le _) le_rfl]

lemma splitBlocksAux_nil : ∀ f, splitBlocksAux f [] = [[]] := by
  intro f
  cases f <;> rfl

lemma splitBlocksAux_fuel_eq : ∀ f1 : Nat, ∀ f2 : Nat, ∀ l : List Char,
    l.length ≤ f1 → l.length ≤ f2 →
    splitBlocksAux f1 l = splitBlocksAux f2 l := by
  intro f1
  induction f1 with
  | zero =>
    intro f2 l h1 h2
    have : l = [] := List.length_eq_zero.mp (by omega)
    subst this
    rw [splitBlocksAux_nil, splitBlocksAux_nil]
  | succ f ih =>
    intro f2 l h1 h2
    cases l with
    | nil => rw [splitBlocksAux_nil, splitBlocksAux_nil]
    | cons c rest =>
      cases f2 with
      | zero => simp at h2
      | succ f2' =>
        cases rest with
        | nil =>
          by_cases hc : c = '\n' <;>
            simp only [splitBlocksAux, splitBlocksAux_nil]
        | cons c2 rest2 =>
          by_cases hc : c = '\n'
          · by_cases hc2 : c2 = '\n'
            · subst hc; subst hc2
              simp only [splitBlocksAux]
              rw [ih f2' (rest2.dropWhile (fun x => x = '\n'))
                (le_trans (List.dropWhile_sublist _).length_le (by simp at h1; omega))
                (le_trans (List.dropWhile_sublist _).length_le (by simp at h2; omega))]
            · subst hc
              have e1 : splitBlocksAux (f + 1) ('\n' :: c2 :: rest2) =
                  match splitBlocksAux f (c2 :: rest2) with
                  | [] => [['\n']]
                  | h :: t => (('\n' :: h)) :: t := by
                conv_lhs => rw [splitBlocksAux.eq_def]
                simp [hc2]
              have e2 : splitBlocksAux (f2' + 1) ('\n' :: c2 :: rest2) =
                  match splitBlocksAux f2' (c2 :: rest2) with
                  | [] => [['\n']]
                  | h :: t => (('\n' :: h)) :: t := by
                conv_lhs => rw [splitBlocksAux.eq_def]
                simp [hc2]
              rw [e1, e2, ih f2' (c2 :: rest2) (by simp at h1 ⊢; omega)
                (by simp at h2 ⊢; omega)]
          · have e1 : splitBlocksAux (f + 1) (c :: c2 :: rest2) =
                match splitBlocksAux f (c2 :: rest2) with
                | [] => [[c]]
                | h :: t => ((c :: h)) :: t := by
              conv_lhs => rw [splitBlocksAux.eq_def]
              simp [hc]
            have e2 : splitBlocksAux (f2' + 1) (c :: c2 :: rest2) =
                match splitBlocksAux f2' (c2 :: rest2) with
                | [] => [[c]]
                | h :: t => ((c :: h)) :: t := by
              conv_lhs => rw [splitBlocksAux.eq_def]
              simp [hc]
            rw [e1, e2, ih f2' (c2 :: rest2) (by simp at h1 ⊢; omega)
              (by simp at h2 ⊢; omega)]

/-! ## Basic list/string lemmas -/

lemma splitChar_ne_nil (sep : Char) (l : List Char) : splitChar sep l ≠ [] := by
  induction l with
  | nil => simp [splitChar]
  | cons c rest ih =>
    simp only [splitChar]
    by_cases hc : c = sep
    · simp [hc]
    · simp only [hc, if_false]
      cases hr : splitChar sep rest with
      | nil => simp
      | cons h t => simp

lemma headD_splitChar (sep : Char) (l : List Char) :
    (splitChar sep l).headD [] = l.takeWhile (fun c => c ≠ sep) := by
  induction l with
  | nil => rfl
  | cons c rest ih =>
    simp only [splitChar, List.takeWhile_cons]
    by_cases hc : c = sep
    · simp [hc]
    · simp only [hc, if_false]
      cases hr : splitChar sep rest with
      | nil => exact absurd hr (splitChar_ne_nil sep rest)
      | cons h t =>
        rw [hr] at ih
        simp only [List.headD_cons] at ih
        simp only [ne_eq, decide_not] at ih
        simp [hc, ih]

lemma takeWhile_ne_of_not_mem (c : Char) (l : List Char) (h : c ∉ l) :
    l.takeWhile (fun x => x ≠ c) = l := by
  induction l with
  | nil => rfl
  | cons a rest ih =>
    simp only [List.mem_cons, not_or] at h
    simp only [List.takeWhile_cons]
    have ha : a ≠ c := fun hh => h.1 hh.symm
    simp only [ne_eq, decide_not] at ih ⊢
    simp [ha, ih h.2]

/-- C10: for every language code, `transcribe_audio` passes only the primary
language subtag to the transcription service: the substring before the first
dash, with dash-free codes sent unchanged (so `zh-TW` is sent as `zh`). -/
theorem c10_transcribe_primary_subtag (language : List Char) :
    transcribe_request_language language = language.takeWhile (fun c => c ≠ '-') ∧
    ('-' ∉ language → transcribe_request_language language = language) ∧
    transcribe_request_language (chars "zh-TW") = chars "zh" := by
  refine ⟨?_, ?_, by decide⟩
  · exact headD_splitChar '-' language
  · intro h
    unfold transcribe_request_language pySplitDash
    rw [headD_splitChar '-' language]
    exact takeWhile_ne_of_not_mem '-' language h

/-- Witness for C10 at a dash-free language code. -/
theorem c10_witness : transcribe_request_language (chars "en") = chars "en" :=
  (c10_transcribe_primary_subtag (chars "en")).2.1 (by decide)

lemma pyStrip_eq_nil_iff (l : List Char) :
    pyStrip l = [] ↔ ∀ x ∈ l, isSpace x := by
  unfold pyStrip
  rw [List.reverse_eq_nil_iff, List.dropWhile_eq_nil_iff]
  constructor
  · intro h x hx
    rcases List.mem_append.mp
      ((List.takeWhile_append_dropWhile (p := isSpace) (l := l)) ▸ hx) with h1 | h1
    · exact List.mem_takeWhile_imp h1
    · exact h x (List.mem_reverse.mpr h1)
  · intro h x hx
    exact h x ((List.dropWhile_sublist _).subset (List.mem_reverse.mp hx))

lemma pyStrip_append_ne_nil (s t : List Char) (h : pyStrip t ≠ []) :
    pyStrip (s ++ t) ≠ [] := by
  intro hc
  apply h
  rw [pyStrip_eq_nil_iff] at hc ⊢
  exact fun x hx => hc x (List.mem_append.mpr (Or.inr hx))

lemma mkSubtitleEntry_merged (o t : SubtitleEntry) (ho : validEntry o = true) :
    mkSubtitleEntry o.index o.start o.stop (t.text ++ chars "\n" ++ o.text) =
      .ok (mergedEntry o t) := by
  unfold validEntry at ho
  simp only [Bool.and_eq_true, decide_eq_true_eq] at ho
  obtain ⟨⟨h1, h2⟩, h3⟩ := ho
  unfold mkSubtitleEntry
  rw [if_neg (by omega), if_neg (by omega),
    if_neg (pyStrip_append_ne_nil _ _ h3)]
  rfl

lemma mergeZip_ok : ∀ (A B : List SubtitleEntry), A.length = B.length →
    (∀ e ∈ A, validEntry e) →
    mergeZip A B = .ok (List.zipWith mergedEntry A B) := by
  intro A
  induction A with
  | nil =>
    intro B hlen _
    cases B with
    | nil => rfl
    | cons b bs => simp at hlen
  | cons a as ih =>
    intro B hlen hv
    cases B with
    | nil => simp at hlen
    | cons b bs =>
      simp only [List.length_cons, Nat.add_right_cancel_iff] at hlen
      have hva : validEntry a = true := hv a (List.mem_cons_self a as)
      have hrest := ih bs hlen (fun e he => hv e (List.mem_cons_of_mem a he))
      simp only [mergeZip, mkSubtitleEntry_merged a b hva, hrest]
      rfl

/-- C5: `merge_subtitles(A, B)` is defined iff `len(A) == len(B)` (count
mismatch raises `ValueError`); a defined result has A's length, and its i-th
entry keeps A's i-th index/start/end with text `B[i].text + "\n" + A[i].text`
— so merge is not order-commutative, witnessed at a concrete pair. -/
theorem c5_merge_shape (A B : List SubtitleEntry)
    (hA : ∀ e ∈ A, validEntry e = true) :
    ((merge_subtitles A B).isOk = true ↔ A.length = B.length) ∧
    (∀ m, merge_subtitles A B = .ok m →
      m.length = A.length ∧
      ∀ i, i < m.length →
        (m.getD i default).index = (A.getD i default).index ∧
        (m.getD i default).start = (A.getD i default).start ∧
        (m.getD i default).stop = (A.getD i default).stop ∧
        (m.getD i default).text =
          (B.getD i default).text ++ chars "\n" ++ (A.getD i default).text) ∧
    merge_subtitles subOrigOne subTransOne ≠ merge_subtitles subTransOne subOrigOne := by
  refine ⟨?_, ?_, by decide⟩
  · constructor
    · intro h
      by_contra hne
      unfold merge_subtitles at h
      rw [if_pos hne] at h
      simp [Except.isOk, Except.toBool] at h
    · intro hlen
      unfold merge_subtitles
      rw [if_neg (by omega), mergeZip_ok A B hlen hA]
      rfl
  · intro m hm
    have hlen : A.length = B.length := by
      by_contra hne
      unfold merge_subtitles at hm
      rw [if_pos hne] at hm
      exact absurd hm (by simp)
    unfold merge_subtitles at hm
    rw [if_neg (by omega), mergeZip_ok A B hlen hA] at hm
    have hm' : List.zipWith mergedEntry A B = m := by injection hm
    subst hm'
    have hml : (List.zipWith mergedEntry A B).length = A.length := by
      rw [List.length_zipWith, hlen, Nat.min_self]
    refine ⟨hml, ?_⟩
    intro i hi
    rw [hml] at hi
    have hiB : i < B.length := hlen ▸ hi
    have hz : i < (List.zipWith mergedEntry A B).length := by omega
    rw [List.getD_eq_getElem _ _ hz, List.getD_eq_getElem _ _ hi,
      List.getD_eq_getElem _ _ hiB, List.getElem_zipWith]
    exact ⟨rfl, rfl, rfl, rfl⟩

/-- Witness for C5 at a concrete equal-length valid pair. -/
theorem c5_merge_shape_witness :
    (merge_subtitles subOrigOne subTransOne).isOk = true := by
  have h := c5_merge_shape subOrigOne subTransOne (by decide)
  exact h.1.mpr (by decide)

/-- C9: a burn request for a job already in `burning` is rejected with the
job record untouched; an eligible request (source video stored, not burning)
is accepted with status set to `burning` and a fresh empty outbox, the other
identity/error/output fields unchanged. -/
theorem c9_burn_reentry (j : Job) :
    (j.status = .burning →
      (burn_job j).1 = j ∧ (burn_job j).2 ≠ .accepted) ∧
    (lookupAssoc FileType.sourceVideo j.outputFiles ≠ none → j.status ≠ .burning →
      burn_job j =
        ({j with status := .burning, progress := 0, eventQueue := []}, .accepted)) := by
  constructor
  · intro hb
    unfold burn_job
    by_cases hsv : lookupAssoc FileType.sourceVideo j.outputFiles = none
    · simp [hsv]
    · simp [hsv, hb]
  · intro hsv hb
    unfold burn_job
    simp [hsv, hb]

/-- Witness for C9: a rejected in-flight re-burn and an accepted re-burn. -/
theorem c9_burn_reentry_witness :
    (burn_job jobBurningNow).1 = jobBurningNow ∧
    (burn_job jobBurningNow).2 ≠ .accepted ∧
    burn_job jobReadyToBurn =
      ({jobReadyToBurn with status := .burning, progress := 0, eventQueue := []},
        .accepted) := by
  have h1 := (c9_burn_reentry jobBurningNow).1 (by decide)
  have h2 := (c9_burn_reentry jobReadyToBurn).2 (by decide) (by decide)
  exact ⟨h1.1, h1.2, h2⟩

/-! ## C1: orchestrator error boundary -/

/-- C1 counterexample: a stage exception of kind `PipelineError` is re-raised
by `run_pipeline` (`except PipelineError: raise`) instead of being caught,
recorded and converted to `failed` — the entry point does raise to its
caller. -/
theorem c1_counterexample :
    (run_pipeline jobBase stagesRaisePE).2 =
      some (.pipelineError (chars "boom") (chars "Boom") none) ∧
    (run_pipeline jobBase stagesRaisePE).1.status ≠ .failed ∧
    (run_pipeline jobBase stagesRaisePE).1.errorCode = none := by
  refine ⟨by decide, by decide, by decide⟩

/-- C1 (amended): for every stage exception except `PipelineError` itself,
`run_pipeline` catches it at the outer boundary, translates it through the
ordered kind table (unmapped kinds falling back to `pipeline_failed`),
records the `(code, message, detail)` on the Job, appends a terminal `error`
event, sets status `failed`, and raises nothing; a `PipelineError` is
re-raised unhandled; `run_burn` never raises and maps every exception,
`PipelineError` included. -/
theorem c1_error_boundary (j : Job) (s : PipelineStages) (srt : List Char) :
    (∀ j1 e, runPipelineBody j s = (j1, some e) → e.isPipelineError = false →
      run_pipeline j s =
        (sendError j1 (toPipelineError e).1 (toPipelineError e).2.1
          (toPipelineError e).2.2, none) ∧
      (run_pipeline j s).1.status = .failed ∧
      (run_pipeline j s).1.errorCode = some (toPipelineError e).1 ∧
      (run_pipeline j s).1.errorMessage = some (toPipelineError e).2.1 ∧
      (run_pipeline j s).1.errorDetail = some (toPipelineError e).2.2 ∧
      (run_pipeline j s).1.eventQueue =
        j1.eventQueue ++
          [Event.error (toPipelineError e).1 (toPipelineError e).2.1
            (toPipelineError e).2.2] ∧
      isTerminalEvent
        (Event.error (toPipelineError e).1 (toPipelineError e).2.1
          (toPipelineError e).2.2) = true) ∧
    (∀ j1 e, runPipelineBody j s = (j1, some e) → e.isPipelineError = true →
      run_pipeline j s = (j1, some e)) ∧
    (∀ j1, runPipelineBody j s = (j1, none) → run_pipeline j s = (j1, none)) ∧
    ((run_burn j srt s).2 = none) ∧
    (∀ j1 e, runBurnBody j s = (j1, some e) →
      run_burn j srt s =
        (sendError j1 (toPipelineError e).1 (toPipelineError e).2.1
          (toPipelineError e).2.2, none)) ∧
    (∀ m, toPipelineError (.downloadError m) =
      (chars "download_failed", chars "Failed to download video", m)) ∧
    (∀ m, toPipelineError (.transcriptionError m) =
      (chars "transcription_failed", chars "Failed to transcribe audio", m)) ∧
    (∀ m, toPipelineError (.translationError m) =
      (chars "translation_failed", chars "Failed to translate subtitles", m)) ∧
    (∀ m, toPipelineError (.rateLimitError m) =
      (chars "translation_failed", chars "Failed to translate subtitles", m)) ∧
    (∀ m, toPipelineError (.ffmpegError m) =
      (chars "burn_failed", chars "Failed to burn subtitles into video", m)) ∧
    (∀ m, toPipelineError (.valueError m) =
      (chars "invalid_input", chars "Invalid input", m)) ∧
    (∀ m, toPipelineError (.srtParseError m) =
      (chars "pipeline_failed", chars "Unexpected pipeline error", m)) ∧
    (∀ m, toPipelineError (.keyError m) =
      (chars "pipeline_failed", chars "Unexpected pipeline error", m)) ∧
    (∀ m, toPipelineError (.otherError m) =
      (chars "pipeline_failed", chars "Unexpected pipeline error", m)) ∧
    (∀ c m d, toPipelineError (.pipelineError c m d) =
      (chars "pipeline_failed", chars "Unexpected pipeline error", m)) := by
  refine ⟨?_, ?_, ?_, ?_, ?_,
    fun m => rfl, fun m => rfl, fun m => rfl, fun m => rfl, fun m => rfl,
    fun m => rfl, fun m => rfl, fun m => rfl, fun m => rfl, fun c m d => rfl⟩
  · intro j1 e hbody he
    have hrp : run_pipeline j s =
        (sendError j1 (toPipelineError e).1 (toPipelineError e).2.1
          (toPipelineError e).2.2, none) := by
      unfold run_pipeline
      rw [hbody]
      simp [he]
    refine ⟨hrp, ?_, ?_, ?_, ?_, ?_, rfl⟩ <;> rw [hrp] <;> simp [sendError]
  · intro j1 e hbody he
    unfold run_pipeline
    rw [hbody]
    simp [he]
  · intro j1 hbody
    unfold run_pipeline
    rw [hbody]
  · unfold run_burn
    rcases hb : runBurnBody j s with ⟨j1, e⟩
    cases e <;> simp
  · intro j1 e hbody
    unfold run_burn
    rw [hbody]

/-- Witness for the amended C1 at a concrete `DownloadError` failure. -/
theorem c1_error_boundary_witness :
    (run_pipeline jobBase stagesRaiseDL).1.status = .failed ∧
    (run_pipeline jobBase stagesRaiseDL).1.errorCode =
      some (chars "download_failed") := by
  have h := (c1_error_boundary jobBase stagesRaiseDL []).1
    (runPipelineBody jobBase stagesRaiseDL).1 (.downloadError (chars "404"))
    (by decide) (by decide)
  refine ⟨h.2.1, ?_⟩
  rw [h.2.2.1]
  rfl

/-! ## C8: split and combined entry points -/

/-- C8: the acquire-only entry point `run_download` (modelled from the spec;
imported by the routes and exercised by the tests but absent from the shipped
sources) on success sets status `download_complete` and emits a
`download_complete` event which the SSE generator does not treat as terminal;
the combined entry point `run_pipeline` runs acquisition through completion:
a successful body ends `completed` with a terminal `complete` event. -/
theorem c8_split_and_combined_entry (j : Job) (s : PipelineStages) :
    (j.localVideoPath = none → (∃ md, s.downloadResult = .ok md) →
      s.trimResult = .ok () → s.extractAudioResult = .ok () →
      (run_download j s).2 = none ∧
      (run_download j s).1.status = .downloadComplete ∧
      (run_download j s).1.eventQueue.getLast? = some .downloadComplete ∧
      isTerminalEvent .downloadComplete = false) ∧
    (∀ j1, runPipelineBody j s = (j1, none) →
      run_pipeline j s = (j1, none) ∧
      j1.status = .completed ∧
      j1.eventQueue.getLast? = some .complete ∧
      isTerminalEvent .complete = true) := by
  constructor
  · rintro hlocal ⟨md, hdl⟩ htrim hextract
    have hbody : ∃ j2 : Job, runDownloadBody j s = (j2, none) ∧
        j2.status = .downloadComplete ∧
        j2.eventQueue.getLast? = some .downloadComplete := by
      unfold runDownloadBody acquireVideo trimIfNeeded extractAudioStep
      rw [hlocal]
      simp only [hdl, htrim, hextract]
      by_cases hse : (sendProgress j .downloading 0 (chars "download")
          (chars "Downloading video")).startTime = none ∧
          (sendProgress j .downloading 0 (chars "download")
            (chars "Downloading video")).endTime = none
      · simp only [if_pos hse]
        exact ⟨_, rfl, rfl, by simp⟩
      · simp only [if_neg hse]
        exact ⟨_, rfl, rfl, by simp⟩
    obtain ⟨j2, hbody, hst, hlast⟩ := hbody
    have hrd : run_download j s = (j2, none) := by
      unfold run_download
      rw [hbody]
    rw [hrd]
    exact ⟨rfl, hst, hlast, rfl⟩
  · intro j1 hbody
    have hrp : run_pipeline j s = (j1, none) := by
      unfold run_pipeline
      rw [hbody]
    refine ⟨hrp, ?_⟩
    unfold runPipelineBody at hbody
    split at hbody
    · exact absurd hbody (by simp)
    · split at hbody
      · exact absurd hbody (by simp)
      · split at hbody
        · exact absurd hbody (by simp)
        · split at hbody
          · exact absurd hbody (by simp)
          · split at hbody
            · exact absurd hbody (by simp)
            · split at hbody
              · exact absurd hbody (by simp)
              · split at hbody
                · exact absurd hbody (by simp)
                · split at hbody
                  · exact absurd hbody (by simp)
                  · rw [Prod.mk.injEq] at hbody
                    obtain ⟨hj, _⟩ := hbody
                    subst hj
                    refine ⟨rfl, ?_, rfl⟩
                    simp [sendComplete]

/-- Witness for C8 at an all-success stage record. -/
theorem c8_split_and_combined_entry_witness :
    (run_download jobBase stagesOk).2 = none ∧
    (run_download jobBase stagesOk).1.status = .downloadComplete := by
  have h := (c8_split_and_combined_entry jobBase stagesOk).1
    rfl ⟨mdOk, rfl⟩ rfl rfl
  exact ⟨h.1, h.2.1⟩

/-! ## C7: partial retranslation -/

lemma pyDedupIntsAux_mem : ∀ fuel : Nat, ∀ l : List Int, ∀ x : Int,
    l.length ≤ fuel → (x ∈ pyDedupIntsAux fuel l ↔ x ∈ l) := by
  intro fuel
  induction fuel with
  | zero =>
    intro l x h
    have : l = [] := List.length_eq_zero.mp (by omega)
    subst this
    simp [pyDedupIntsAux]
  | succ f ih =>
    intro l x h
    cases l with
    | nil => simp [pyDedupIntsAux]
    | cons a xs =>
      simp only [pyDedupIntsAux, List.mem_cons]
      have ihf := ih (xs.filter (fun y => y ≠ a)) x
        (le_trans (xs.length_filter_le _) (by simpa using h))
      constructor
      · intro hmem
        rcases hmem with hmem | hmem
        · exact Or.inl hmem
        · exact Or.inr (List.mem_filter.mp (ihf.mp hmem)).1
      · intro hmem
        rcases hmem with hmem | hmem
        · exact Or.inl hmem
        · by_cases hx : x = a
          · exact Or.inl hx
          · exact Or.inr (ihf.mpr (List.mem_filter.mpr ⟨hmem, by simp [hx]⟩))

lemma pyDedupInts_mem (l : List Int) (x : Int) :
    x ∈ pyDedupInts l ↔ x ∈ l :=
  pyDedupIntsAux_mem l.length l x le_rfl

lemma retrGo_keys (script : Script) (entries : List RetranslateEntry)
    (pos : List (Int × Nat)) (uctx src tgt : List Char) :
    ∀ (ts : List Int) (k : Nat) (sleeps : List Rat) (prompts : List (List Char))
      (acc : List (Int × List Char)) (tr : RetrTrace) (m : List (Int × List Char)),
      retrGo script entries pos uctx src tgt ts k sleeps prompts acc = (tr, .ok m) →
      m.map Prod.fst = acc.map Prod.fst ++ ts := by
  intro ts
  induction ts with
  | nil =>
    intro k sleeps prompts acc tr m h
    rw [retrGo] at h
    rw [Prod.mk.injEq] at h
    obtain ⟨_, h2⟩ := h
    have : acc = m := by injection h2
    subst this
    simp
  | cons t ts ih =>
    intro k sleeps prompts acc tr m h
    rw [retrGo] at h
    rcases hone : retrOneTarget script k t 6 with ⟨k1, sl, res⟩
    rw [hone] at h
    cases res with
    | ok text =>
      have := ih k1 (sleeps ++ sl) (prompts ++ [_]) (acc ++ [(t, text)]) tr m h
      simpa using this
    | error e =>
      rw [Prod.mk.injEq] at h
      exact absurd h.2 (by simp)

/-- C7: with non-empty rows and a non-empty target list, a target index
absent from the rows makes `retranslate_entries` fail with `ValueError`
before any model-service call (zero calls); a successful result's key list is
exactly the de-duplicated requested indices, and its key set equals the set
of requested indices regardless of request order. -/
theorem c7_retranslate_validation (entries : List RetranslateEntry)
    (selected : List Int) (script : Script) (src tgt uctx : List Char) :
    (entries ≠ [] → selected ≠ [] →
      (∃ i ∈ pyDedupInts selected, lookupAssoc i (posByIndex entries) = none) →
      (retranslate_entries script entries selected src tgt uctx).1.calls = 0 ∧
      ∃ msg, (retranslate_entries script entries selected src tgt uctx).2 =
        .error (.valueErr msg)) ∧
    (∀ m, (retranslate_entries script entries selected src tgt uctx).2 = .ok m →
      m.map Prod.fst = pyDedupInts selected ∧
      ∀ i : Int, i ∈ m.map Prod.fst ↔ i ∈ selected) := by
  constructor
  · intro h1 h2 ⟨i, hi, hlook⟩
    have hmiss : (pyDedupInts selected).filter
        (fun idx => lookupAssoc idx (posByIndex entries) = none) ≠ [] := by
      apply List.ne_nil_of_mem (a := i)
      exact List.mem_filter.mpr ⟨hi, by simp [hlook]⟩
    unfold retranslate_entries
    rw [if_neg h1, if_neg h2, if_pos hmiss]
    exact ⟨rfl, _, rfl⟩
  · intro m hm
    by_cases h1 : entries = []
    · unfold retranslate_entries at hm
      rw [if_pos h1] at hm
      exact absurd hm (by simp)
    · by_cases h2 : selected = []
      · unfold retranslate_entries at hm
        rw [if_neg h1, if_pos h2] at hm
        exact absurd hm (by simp)
      · by_cases h3 : (pyDedupInts selected).filter
            (fun idx => lookupAssoc idx (posByIndex entries) = none) ≠ []
        · unfold retranslate_entries at hm
          rw [if_neg h1, if_neg h2, if_pos h3] at hm
          exact absurd hm (by simp)
        · unfold retranslate_entries at hm
          rw [if_neg h1, if_neg h2, if_neg h3] at hm
          rcases hgo : retrGo script entries (posByIndex entries)
              (compactText uctx) src tgt (pyDedupInts selected) 0 [] [] [] with ⟨tr, res⟩
          rw [hgo] at hm
          simp only at hm
          have hres : res = .ok m := hm
          subst hres
          have hkeys := retrGo_keys script entries (posByIndex entries)
            (compactText uctx) src tgt (pyDedupInts selected) 0 [] [] [] tr m hgo
          simp only [List.map_nil, List.nil_append] at hkeys
          refine ⟨hkeys, ?_⟩
          intro i
          rw [hkeys]
          exact pyDedupInts_mem selected i

/-- Witness for C7: an unknown index is rejected with zero calls, and a
successful de-duplicated request at a concrete script. -/
theorem c7_retranslate_validation_witness :
    (retranslate_entries scriptNice retrRowsW [7] (chars "en") (chars "zh-TW") []).1.calls = 0 ∧
    List.map Prod.fst [((5 : Int), chars "nice"), (1, chars "nice")] = pyDedupInts [5, 1, 5] := by
  have h1 := (c7_retranslate_validation retrRowsW [7] scriptNice
    (chars "en") (chars "zh-TW") []).1 (by decide) (by decide)
    ⟨7, by decide, by decide⟩
  have h2 := (c7_retranslate_validation retrRowsW [5, 1, 5] scriptNice
    (chars "en") (chars "zh-TW") []).2 [(5, chars "nice"), (1, chars "nice")]
    (by decide)
  exact ⟨h1.1, h2.1⟩

/-! ## C3: rate-limit retry and fallback -/

lemma translateBatchCall_rate (script : Script) (k : Nat)
    (batch : List SubtitleEntry) (s : List Char) (d : Rat)
    (h1 : script k = .ok s) (h2 : pyStrip s ≠ [])
    (h3 : checkRateLimit (pyStrip s) = some d) :
    translateBatchCall script k batch = (k + 1, .error (.rateLimit d)) := by
  unfold translateBatchCall
  rw [h1]
  simp [h2, h3]

lemma translateBatchCall_parse_error (script : Script) (k : Nat)
    (batch : List SubtitleEntry) (s : List Char) (pm : List Char)
    (h1 : script k = .ok s) (h2 : pyStrip s ≠ [])
    (h3 : checkRateLimit (pyStrip s) = none)
    (h4 : parseBatchResponse (pyStrip s) batch.length = .error pm) :
    translateBatchCall script k batch =
      (k + 1, .error (.translationError pm)) := by
  unfold translateBatchCall
  rw [h1]
  simp [h2, h3, h4]

lemma translateBatchCall_ok (script : Script) (k : Nat)
    (batch : List SubtitleEntry) (s : List Char) (ts : List (List Char))
    (h1 : script k = .ok s) (h2 : pyStrip s ≠ [])
    (h3 : checkRateLimit (pyStrip s) = none)
    (h4 : parseBatchResponse (pyStrip s) batch.length = .ok ts) :
    translateBatchCall script k batch = (k + 1, .ok ts) := by
  unfold translateBatchCall
  rw [h1]
  simp [h2, h3, h4]

lemma attemptOnce_rate (script : Script) (k : Nat)
    (batch : List SubtitleEntry) (s : List Char) (d : Rat)
    (h1 : script k = .ok s) (h2 : pyStrip s ≠ [])
    (h3 : checkRateLimit (pyStrip s) = some d) :
    attemptOnce script k batch = (k + 1, .error (.rateLimit d)) := by
  unfold attemptOnce
  rw [translateBatchCall_rate script k batch s d h1 h2 h3]

lemma oneByOne_ok (script : Script) :
    ∀ (es : List SubtitleEntry) (k : Nat) (t : Nat → List Char),
      (∀ j, j < es.length → script (k + j) = .ok (t j) ∧
        checkRateLimit (pyStrip (t j)) = none ∧ pyStrip (t j) ≠ []) →
      oneByOne script k es =
        (k + es.length, .ok ((List.range es.length).map (fun j => pyStrip (t j)))) := by
  intro es
  induction es with
  | nil => intro k t _; simp [oneByOne]
  | cons e es ih =>
    intro k t h
    have h0 := h 0 (by simp)
    simp only [Nat.add_zero] at h0
    have hrest := ih (k + 1) (fun j => t (j + 1)) (fun j hj => by
      have := h (j + 1) (by simpa using Nat.succ_lt_succ hj)
      constructor
      · have e1 : k + 1 + j = k + (j + 1) := by omega
        rw [e1]
        exact this.1
      · exact this.2)
    unfold oneByOne
    rw [h0.1]
    dsimp only
    rw [h0.2.1]
    rw [if_neg h0.2.2, hrest]
    dsimp only
    rw [Prod.mk.injEq]
    constructor
    · simp only [List.length_cons]
      omega
    · simp only [List.length_cons, List.range_succ_eq_map, List.map_cons,
        List.map_map]
      rfl

lemma oneByOne_rate_head (script : Script) (k : Nat) (e : SubtitleEntry)
    (es : List SubtitleEntry) (s1 : List Char) (d1 : Rat)
    (h1 : script k = .ok s1) (h3 : checkRateLimit (pyStrip s1) = some d1) :
    oneByOne script k (e :: es) = (k + 1, .error (.rateLimit d1)) := by
  unfold oneByOne
  rw [h1]
  simp [h3]

lemma retryBatch_succ (script : Script) (batch : List SubtitleEntry)
    (k fuel : Nat) :
    retryBatch script batch k (fuel + 1) =
      match attemptOnce script k batch with
      | (k1, .ok ts) => (k1, [], .ok ts)
      | (k1, .error (.translationError m)) => (k1, [], .error m)
      | (k1, .error .externalExn) => (k1, [], .error (chars "unreachable"))
      | (k1, .error (.rateLimit d)) =>
        if 1 ≤ fuel then
          match retryBatch script batch k1 fuel with
          | (k2, sl, r) => (k2, d :: sl, r)
        else
          (k1, [],
           .error (chars "Rate limit exceeded after 5 retries for entries " ++
             intRepr (batch.headD default).index ++ chars "-" ++
             intRepr (batch.getLastD default).index)) := rfl

lemma retryBatch_all_rate (script : Script) (batch : List SubtitleEntry)
    (d : Nat → Rat) : ∀ fuel k, 1 ≤ fuel →
    (∀ m, m < fuel →
      attemptOnce script (k + m) batch = (k + m + 1, .error (.rateLimit (d (k + m))))) →
    retryBatch script batch k fuel =
      (k + fuel, (List.range (fuel - 1)).map (fun m => d (k + m)),
       .error (chars "Rate limit exceeded after 5 retries for entries " ++
         intRepr (batch.headD default).index ++ chars "-" ++
         intRepr (batch.getLastD default).index)) := by
  intro fuel
  induction fuel with
  | zero => intro k h; omega
  | succ f ih =>
    intro k _ h
    have h0 := h 0 (by omega)
    simp only [Nat.add_zero] at h0
    rw [retryBatch_succ, h0]
    dsimp only
    by_cases hf1 : 1 ≤ f
    · have ihh := ih (k + 1) hf1 (fun m hm => by
        have e1 : k + 1 + m = k + (m + 1) := by omega
        rw [e1]
        exact h (m + 1) (by omega))
      rw [if_pos hf1, ihh]
      dsimp only
      rw [Prod.mk.injEq]
      refine ⟨by omega, ?_⟩
      rw [Prod.mk.injEq]
      refine ⟨?_, rfl⟩
      simp only [Nat.add_sub_cancel]
      have hff : f = (f - 1) + 1 := by omega
      conv_rhs => rw [hff, List.range_succ_eq_map]
      simp only [List.map_cons, Nat.add_zero, List.map_map]
      congr 1
      apply List.map_congr_left
      intro m _
      simp only [Function.comp_apply, Nat.succ_eq_add_one]
      congr 1
      omega
    · have hf0 : f = 0 := by omega
      subst hf0
      rw [if_neg hf1]
      simp

lemma translateLoop_succ (script : Script) (entries : List SubtitleEntry)
    (src tgt : List Char) (fuel i : Nat) (st : TransTrace) :
    translateLoop script entries src tgt (fuel + 1) i st =
      match retryBatch script (loopJob entries st.translated src tgt i).batch
          st.calls 6 with
      | (k1, sleeps, .error m) =>
        ({st with
            calls := k1
            jobs := st.jobs ++ [loopJob entries st.translated src tgt i]
            sleeps := st.sleeps ++ sleeps}, some m)
      | (k1, sleeps, .ok ts) =>
        translateLoop script entries src tgt fuel (i + 10)
          {calls := k1
           translated := st.translated ++ ts
           jobs := st.jobs ++ [loopJob entries st.translated src tgt i]
           progressCalls :=
             st.progressCalls ++ [((st.translated ++ ts).length, entries.length)]
           sleeps := st.sleeps ++ sleeps} := rfl

/-- All six attempts rate-limited: six calls, five sleeps, terminal error. -/
lemma retryBatch_rate6 (script : Script) (batch : List SubtitleEntry)
    (s : Nat → List Char) (d : Nat → Rat) (k0 : Nat)
    (h : ∀ m, m < 6 → script (k0 + m) = .ok (s m) ∧ pyStrip (s m) ≠ [] ∧
      checkRateLimit (pyStrip (s m)) = some (d m)) :
    retryBatch script batch k0 6 =
      (k0 + 6, [d 0, d 1, d 2, d 3, d 4],
       .error (chars "Rate limit exceeded after 5 retries for entries " ++
         intRepr (batch.headD default).index ++ chars "-" ++
         intRepr (batch.getLastD default).index)) := by
  have key := retryBatch_all_rate script batch (fun n => d (n - k0)) 6 k0 (by omega)
    (fun m hm => by
      have hm6 := h m hm
      have he : k0 + m - k0 = m := by omega
      rw [attemptOnce_rate script (k0 + m) batch (s m) (d (k0 + m - k0)) hm6.1
        hm6.2.1 (by rw [he]; exact hm6.2.2)])
  rw [key]
  have hmap : (List.range (6 - 1)).map (fun m => d (k0 + m - k0)) =
      [d 0, d 1, d 2, d 3, d 4] := by
    have h5 : List.range (6 - 1) = [0, 1, 2, 3, 4] := rfl
    rw [h5]
    simp only [List.map_cons, List.map_nil, Nat.add_sub_cancel_left]
  rw [hmap]

/-- C3: in `translate_subtitle`, a rate-limit signal retries the entire batch
attempt up to 5 times sleeping the signaled duration, failing with a terminal
`TranslationError` on the 6th rate-limited attempt; a non-rate-limit batch
failure falls back to one-by-one inside the same attempt without consuming a
retry; a rate limit during the fallback is retried under the same policy. -/
theorem c3_rate_limit_retry_policy (script : Script)
    (batch : List SubtitleEntry) (k : Nat) (src tgt : List Char) :
    (∀ s : Nat → List Char, ∀ d : Nat → Rat,
      (∀ m, m < 6 → script (k + m) = .ok (s m) ∧ pyStrip (s m) ≠ [] ∧
        checkRateLimit (pyStrip (s m)) = some (d m)) →
      retryBatch script batch k 6 =
        (k + 6, [d 0, d 1, d 2, d 3, d 4],
         .error (chars "Rate limit exceeded after 5 retries for entries " ++
           intRepr (batch.headD default).index ++ chars "-" ++
           intRepr (batch.getLastD default).index))) ∧
    (∀ s0 pm : List Char, ∀ t : Nat → List Char,
      script k = .ok s0 → pyStrip s0 ≠ [] → checkRateLimit (pyStrip s0) = none →
      parseBatchResponse (pyStrip s0) batch.length = .error pm →
      (∀ j, j < batch.length → script (k + 1 + j) = .ok (t j) ∧
        checkRateLimit (pyStrip (t j)) = none ∧ pyStrip (t j) ≠ []) →
      retryBatch script batch k 6 =
        (k + 1 + batch.length, [],
         .ok ((List.range batch.length).map (fun j => pyStrip (t j))))) ∧
    (∀ s0 pm s1 s2 : List Char, ∀ d1 : Rat, ∀ ts : List (List Char),
      batch ≠ [] →
      script k = .ok s0 → pyStrip s0 ≠ [] → checkRateLimit (pyStrip s0) = none →
      parseBatchResponse (pyStrip s0) batch.length = .error pm →
      script (k + 1) = .ok s1 → checkRateLimit (pyStrip s1) = some d1 →
      script (k + 2) = .ok s2 → pyStrip s2 ≠ [] →
      checkRateLimit (pyStrip s2) = none →
      parseBatchResponse (pyStrip s2) batch.length = .ok ts →
      retryBatch script batch k 6 = (k + 3, [d1], .ok ts)) ∧
    (∀ entries : List SubtitleEntry, ∀ s : Nat → List Char, ∀ d : Nat → Rat,
      entries ≠ [] → entries.length ≤ 10 →
      (∀ m, m < 6 → script m = .ok (s m) ∧ pyStrip (s m) ≠ [] ∧
        checkRateLimit (pyStrip (s m)) = some (d m)) →
      (translate_subtitle script entries src tgt).1.sleeps = [d 0, d 1, d 2, d 3, d 4] ∧
      (translate_subtitle script entries src tgt).1.calls = 6 ∧
      (translate_subtitle script entries src tgt).2 =
        .error (.translationError
          (chars "Rate limit exceeded after 5 retries for entries " ++
            intRepr (entries.headD default).index ++ chars "-" ++
            intRepr (entries.getLastD default).index))) := by
  refine ⟨fun s d h => retryBatch_rate6 script batch s d k h, ?_, ?_, ?_⟩
  · -- non-rate-limit batch failure: fallback within the same attempt,
    -- no sleep, no retry consumed
    intro s0 pm t h1 h2 h3 h4 h5
    have hb : attemptOnce script k batch =
        (k + 1 + batch.length,
         .ok ((List.range batch.length).map (fun j => pyStrip (t j)))) := by
      unfold attemptOnce
      rw [translateBatchCall_parse_error script k batch s0 pm h1 h2 h3 h4]
      exact oneByOne_ok script batch (k + 1) t h5
    show retryBatch script batch k (5 + 1) = _
    rw [retryBatch_succ, hb]
  · -- rate limit inside the fallback: sleep once, then retry the whole
    -- attempt in batch mode
    intro s0 pm s1 s2 d1 ts hbne h1 h2 h3 h4 h5 h6 h7 h8 h9 h10
    have ha : attemptOnce script k batch = (k + 2, .error (.rateLimit d1)) := by
      unfold attemptOnce
      rw [translateBatchCall_parse_error script k batch s0 pm h1 h2 h3 h4]
      cases batch with
      | nil => exact absurd rfl hbne
      | cons e es =>
        dsimp only
        rw [oneByOne_rate_head script (k + 1) e es s1 d1 h5 h6]
    have hb : attemptOnce script (k + 2) batch = (k + 3, .ok ts) := by
      unfold attemptOnce
      rw [translateBatchCall_ok script (k + 2) batch s2 ts h7 h8 h9 h10]
    have hinner : retryBatch script batch (k + 2) 5 = (k + 3, [], .ok ts) := by
      show retryBatch script batch (k + 2) (4 + 1) = _
      rw [retryBatch_succ, hb]
    show retryBatch script batch k (5 + 1) = _
    rw [retryBatch_succ, ha]
    dsimp only
    rw [if_pos (by omega : (1 : Nat) ≤ 5), hinner]
  · -- a single-batch subtitle rate-limited on every attempt fails the call
    intro entries s d hne hle h
    have hnum : (entries.length + 10 - 1) / 10 = 1 := by
      have : 1 ≤ entries.length := List.length_pos.mpr hne
      omega
    have hbatch : (loopJob entries ([] : List (List Char)) src tgt 0).batch = entries := by
      simp [loopJob, List.take_of_length_le hle]
    have hretry := retryBatch_rate6 script
      ((loopJob entries ([] : List (List Char)) src tgt 0).batch) s d 0
      (fun m hm => by simpa using h m hm)
    rw [hbatch] at hretry
    have hloop : translateLoop script entries src tgt 1 0 TransTrace.init =
        ({TransTrace.init with
            calls := 0 + 6
            jobs := TransTrace.init.jobs ++ [loopJob entries ([] : List (List Char)) src tgt 0]
            sleeps := TransTrace.init.sleeps ++ [d 0, d 1, d 2, d 3, d 4]},
         some (chars "Rate limit exceeded after 5 retries for entries " ++
           intRepr (entries.headD default).index ++ chars "-" ++
           intRepr (entries.getLastD default).index)) := by
      rw [translateLoop_succ]
      have hcalls : TransTrace.init.calls = 0 := rfl
      have htr : TransTrace.init.translated = [] := rfl
      rw [htr, hcalls, hbatch, hretry]
      rfl
    have hts : translate_subtitle script entries src tgt =
        ({TransTrace.init with
            calls := 0 + 6
            jobs := TransTrace.init.jobs ++ [loopJob entries ([] : List (List Char)) src tgt 0]
            sleeps := TransTrace.init.sleeps ++ [d 0, d 1, d 2, d 3, d 4]},
         .error (.translationError
           (chars "Rate limit exceeded after 5 retries for entries " ++
             intRepr (entries.headD default).index ++ chars "-" ++
             intRepr (entries.getLastD default).index))) := by
      unfold translate_subtitle
      dsimp only
      rw [hnum, hloop]
    rw [hts]
    exact ⟨rfl, rfl, rfl⟩

/-- Witness for C3: a concrete 3-entry batch against the always-rate-limited
script makes six calls, sleeps five times and fails terminally. -/
theorem c3_rate_limit_retry_policy_witness :
    (translate_subtitle scriptRL (mkEntries 3) (chars "en") (chars "zh-TW")).1.sleeps =
      [rlDelay, rlDelay, rlDelay, rlDelay, rlDelay] ∧
    (translate_subtitle scriptRL (mkEntries 3) (chars "en") (chars "zh-TW")).1.calls = 6 := by
  have h := (c3_rate_limit_retry_policy scriptRL (mkEntries 3) 0
    (chars "en") (chars "zh-TW")).2.2.2 (mkEntries 3)
    (fun _ => chars "rate_limit_exceeded")
    (fun _ => rlDelay) (by decide) (by decide)
    (fun m _ =>
      ⟨rfl,
       show pyStrip (chars "rate_limit_exceeded") ≠ [] by decide,
       show checkRateLimit (pyStrip (chars "rate_limit_exceeded")) =
           some rlDelay by decide⟩)
  exact ⟨h.1, h.2.1⟩

/-! ## C2/C4: batching plan, context, lookahead and progress -/

lemma prefix_getD_eq {α : Type} (p q : List α) (h : p <+: q) (j : Nat)
    (hj : j < p.length) (d : α) : p.getD j d = q.getD j d := by
  obtain ⟨t, rfl⟩ := h
  rw [List.getD_append _ _ _ _ hj]

lemma translateLoop_translated_prefix (script : Script)
    (entries : List SubtitleEntry) (src tgt : List Char) :
    ∀ fuel i st, st.translated <+:
      ((translateLoop script entries src tgt fuel i st).1).translated := by
  intro fuel
  induction fuel with
  | zero => intro i st; exact List.prefix_refl _
  | succ f ih =>
    intro i st
    rw [translateLoop_succ]
    rcases hr : retryBatch script (loopJob entries st.translated src tgt i).batch
        st.calls 6 with ⟨k1, sleeps, res⟩
    cases res with
    | error m => exact List.prefix_refl _
    | ok ts =>
      dsimp only
      refine List.IsPrefix.trans ?_ (ih (i + 10) _)
      exact List.prefix_append _ _

lemma loopJob_translated_stable (entries : List SubtitleEntry)
    (src tgt : List Char) (i : Nat) (p q : List (List Char))
    (hpq : p <+: q) (hlen : i ≤ p.length) :
    loopJob entries p src tgt i = loopJob entries q src tgt i := by
  unfold loopJob
  by_cases hi : 0 < i
  · simp only [hi, if_true]
    have : ∀ j ∈ List.range' (i - 3) (i - (i - 3)),
        ((entries.getD j default).text, p.getD j []) =
        ((entries.getD j default).text, q.getD j []) := by
      intro j hj
      have hj' : j < i := by
        have := List.mem_range'_1.mp hj
        omega
      rw [prefix_getD_eq p q hpq j (by omega) []]
    rw [List.map_congr_left this]
  · simp only [hi, if_false]

lemma collectTranslations_length (dict : List (Nat × List Char)) :
    ∀ is0 l, collectTranslations dict is0 = .ok l → l.length = is0.length := by
  intro is0
  induction is0 with
  | nil =>
    intro l h
    have : ([] : List (List Char)) = l := by
      unfold collectTranslations at h
      injection h
    subst this
    rfl
  | cons i is ih =>
    intro l h
    unfold collectTranslations at h
    rcases hl : lookupAssoc i dict with _ | t
    · rw [hl] at h
      exact absurd h (by simp)
    · rw [hl] at h
      rcases hrest : collectTranslations dict is with m | rest
      · rw [hrest] at h
        dsimp only at h
        exact absurd h (by simp [Bind.bind, Except.bind])
      · rw [hrest] at h
        dsimp only at h
        have : t :: rest = l := by injection h
        subst this
        simp [ih rest hrest]

lemma parseBatchResponse_length (s : List Char) (expected : Nat)
    (ts : List (List Char)) (h : parseBatchResponse s expected = .ok ts) :
    ts.length = expected := by
  unfold parseBatchResponse at h
  by_cases hd : (((splitChar '\n' (pyStrip s)).foldl
      (fun d line =>
        match parseResponseLine line with
        | some (n, t) => upsert n t d
        | none => d) []).length : Nat) ≠ expected
  · rw [if_pos hd] at h
    exact absurd h (by simp)
  · rw [if_neg hd] at h
    have := collectTranslations_length _ _ _ h
    simpa using this

lemma oneByOne_ok_length (script : Script) :
    ∀ (es : List SubtitleEntry) (k k2 : Nat) (l : List (List Char)),
      oneByOne script k es = (k2, .ok l) → l.length = es.length := by
  intro es
  induction es with
  | nil =>
    intro k k2 l h
    unfold oneByOne at h
    rw [Prod.mk.injEq] at h
    have : ([] : List (List Char)) = l := by
      have := h.2
      injection this
    subst this
    rfl
  | cons e es ih =>
    intro k k2 l h
    unfold oneByOne at h
    rcases hs : script k with _ | content
    · rw [hs] at h
      rw [Prod.mk.injEq] at h
      exact absurd h.2 (by simp)
    · rw [hs] at h
      dsimp only at h
      rcases hcr : checkRateLimit (pyStrip content) with _ | d
      · rw [hcr] at h
        by_cases he : pyStrip content = []
        · rw [if_pos he] at h
          rw [Prod.mk.injEq] at h
          exact absurd h.2 (by simp)
        · rw [if_neg he] at h
          rcases hrec : oneByOne script (k + 1) es with ⟨k3, res3⟩
          rw [hrec] at h
          cases res3 with
          | ok rest =>
            rw [Prod.mk.injEq] at h
            have : pyStrip content :: rest = l := by
              have := h.2
              injection this
            subst this
            simp [ih (k + 1) k3 rest hrec]
          | error err =>
            rw [Prod.mk.injEq] at h
            exact absurd h.2 (by simp)
      · rw [hcr] at h
        rw [Prod.mk.injEq] at h
        exact absurd h.2 (by simp)

lemma translateBatchCall_ok_length (script : Script) (k k1 : Nat)
    (batch : List SubtitleEntry) (ts : List (List Char))
    (h : translateBatchCall script k batch = (k1, .ok ts)) :
    ts.length = batch.length := by
  unfold translateBatchCall at h
  rcases hs : script k with _ | content
  · rw [hs] at h
    rw [Prod.mk.injEq] at h
    exact absurd h.2 (by simp)
  · rw [hs] at h
    dsimp only at h
    rw [Prod.mk.injEq] at h
    by_cases he : pyStrip content = []
    · rw [if_pos he] at h
      exact absurd h.2 (by simp)
    · rw [if_neg he] at h
      rcases hcr : checkRateLimit (pyStrip content) with _ | d
      · rw [hcr] at h
        dsimp only at h
        rcases hp : parseBatchResponse (pyStrip content) batch.length with m | ts2
        · rw [hp] at h
          exact absurd h.2 (by simp)
        · rw [hp] at h
          have : ts2 = ts := by
            have := h.2
            injection this
          subst this
          exact parseBatchResponse_length _ _ _ hp
      · rw [hcr] at h
        exact absurd h.2 (by simp)

lemma attemptOnce_ok_length (script : Script) (k k1 : Nat)
    (batch : List SubtitleEntry) (ts : List (List Char))
    (h : attemptOnce script k batch = (k1, .ok ts)) :
    ts.length = batch.length := by
  unfold attemptOnce at h
  rcases hb : translateBatchCall script k batch with ⟨kb, resb⟩
  rw [hb] at h
  cases resb with
  | ok ts2 =>
    rw [Prod.mk.injEq] at h
    have hts : ts2 = ts := by
      have := h.2
      injection this
    rw [← hts]
    exact translateBatchCall_ok_length script k kb batch ts2 hb
  | error e =>
    cases e with
    | rateLimit d =>
      rw [Prod.mk.injEq] at h
      exact absurd h.2 (by simp)
    | translationError m => exact oneByOne_ok_length script batch kb k1 ts h
    | externalExn => exact oneByOne_ok_length script batch kb k1 ts h

lemma retryBatch_ok_length (script : Script) (batch : List SubtitleEntry) :
    ∀ fuel k k1 sl ts, retryBatch script batch k fuel = (k1, sl, .ok ts) →
      ts.length = batch.length := by
  intro fuel
  induction fuel with
  | zero =>
    intro k k1 sl ts h
    unfold retryBatch at h
    simp only [Prod.mk.injEq] at h
    exact absurd h.2.2 (by simp)
  | succ f ih =>
    intro k k1 sl ts h
    rw [retryBatch_succ] at h
    rcases ha : attemptOnce script k batch with ⟨ka, resa⟩
    rw [ha] at h
    cases resa with
    | ok ts2 =>
      simp only [Prod.mk.injEq] at h
      have hts : ts2 = ts := by
        have := h.2.2
        injection this
      rw [← hts]
      exact attemptOnce_ok_length script k ka batch ts2 ha
    | error e =>
      cases e with
      | translationError m =>
        simp only [Prod.mk.injEq] at h
        exact absurd h.2.2 (by simp)
      | externalExn =>
        simp only [Prod.mk.injEq] at h
        exact absurd h.2.2 (by simp)
      | rateLimit d =>
        dsimp only at h
        by_cases hf : 1 ≤ f
        · rw [if_pos hf] at h
          rcases hrec : retryBatch script batch ka f with ⟨k2, sl2, r2⟩
          rw [hrec] at h
          simp only [Prod.mk.injEq] at h
          cases r2 with
          | ok ts3 =>
            have hts : ts3 = ts := by
              have := h.2.2
              injection this
            rw [← hts]
            exact ih ka k2 sl2 ts3 hrec
          | error m => exact absurd h.2.2 (by simp)
        · rw [if_neg hf] at h
          simp only [Prod.mk.injEq] at h
          exact absurd h.2.2 (by simp)

lemma translateLoop_zero (script : Script) (entries : List SubtitleEntry)
    (src tgt : List Char) (i : Nat) (st : TransTrace) :
    translateLoop script entries src tgt 0 i st = (st, none) := rfl

lemma range_map_succ_shift {α : Type} (g : Nat → α) (n : Nat) :
    (List.range (n + 1)).map g = g 0 :: (List.range n).map (fun b => g (b + 1)) := by
  rw [List.range_succ_eq_map]
  simp only [List.map_cons, List.map_map]
  rfl

lemma getD_map_range {α : Type} (g : Nat → α) (n b : Nat) (hb : b < n) (d : α) :
    ((List.range n).map g).getD b d = g b := by
  have hb2 : b < ((List.range n).map g).length := by simpa using hb
  rw [List.getD_eq_getElem _ _ hb2]
  simp

lemma loopJob_batch (entries : List SubtitleEntry) (T : List (List Char))
    (src tgt : List Char) (i : Nat) :
    (loopJob entries T src tgt i).batch = (entries.drop i).take 10 := rfl

lemma loopJob_context (entries : List SubtitleEntry) (T : List (List Char))
    (src tgt : List Char) (i : Nat) :
    (loopJob entries T src tgt i).context =
      if 0 < i then
        some ((List.range' (i - 3) (i - (i - 3))).map
          (fun j => ((entries.getD j default).text, T.getD j [])))
      else none := rfl

lemma loopJob_lookahead (entries : List SubtitleEntry) (T : List (List Char))
    (src tgt : List Char) (i : Nat) :
    (loopJob entries T src tgt i).lookahead =
      if i + 10 < entries.length then some ((entries.drop (i + 10)).take 3)
      else none := rfl

lemma loopJob_prompt (entries : List SubtitleEntry) (T : List (List Char))
    (src tgt : List Char) (i : Nat) :
    (loopJob entries T src tgt i).prompt =
      mkBatchPrompt (loopJob entries T src tgt i).batch
        (loopJob entries T src tgt i).context
        (loopJob entries T src tgt i).lookahead src tgt := rfl

lemma translateLoop_spec (script : Script) (entries : List SubtitleEntry)
    (src tgt : List Char) :
    ∀ fuel i st,
      fuel = (entries.length - i + 9) / 10 →
      st.translated.length = min i entries.length →
      ∃ m, m ≤ fuel ∧
        (((translateLoop script entries src tgt fuel i st).2 = none) ↔ m = fuel) ∧
        ((translateLoop script entries src tgt fuel i st).1).translated.length =
          min (i + 10 * m) entries.length ∧
        ((translateLoop script entries src tgt fuel i st).2 = none →
          ((translateLoop script entries src tgt fuel i st).1).jobs =
            st.jobs ++ (List.range m).map
              (fun b => loopJob entries
                ((translateLoop script entries src tgt fuel i st).1).translated
                src tgt (i + 10 * b))) ∧
        ((translateLoop script entries src tgt fuel i st).2 ≠ none →
          ((translateLoop script entries src tgt fuel i st).1).jobs =
            st.jobs ++ (List.range (m + 1)).map
              (fun b => loopJob entries
                ((translateLoop script entries src tgt fuel i st).1).translated
                src tgt (i + 10 * b))) ∧
        ((translateLoop script entries src tgt fuel i st).1).progressCalls =
          st.progressCalls ++ (List.range m).map
            (fun b => (min (i + 10 * (b + 1)) entries.length, entries.length)) := by
  intro fuel
  induction fuel with
  | zero =>
    intro i st hf hlen
    rw [translateLoop_zero]
    refine ⟨0, Nat.le_refl 0, by simp, ?_, ?_, ?_, ?_⟩
    · dsimp only
      rw [hlen]
      omega
    · intro _
      simp
    · intro h
      exact absurd rfl h
    · simp
  | succ f ih =>
    intro i st hf hlen
    have hiL : i < entries.length := by omega
    rw [translateLoop_succ]
    rcases hr : retryBatch script (loopJob entries st.translated src tgt i).batch
        st.calls 6 with ⟨k1, sleeps, res⟩
    cases res with
    | error m =>
      dsimp only
      refine ⟨0, Nat.zero_le _,
        ⟨fun h => absurd h (by simp), fun h => absurd h (by omega)⟩, ?_, ?_, ?_, ?_⟩
      · dsimp only
        rw [hlen]
        omega
      · intro h
        exact absurd h (by simp)
      · intro _
        rw [range_map_succ_shift]
        simp
      · simp
    | ok ts =>
      dsimp only
      have hts : ts.length = min 10 (entries.length - i) := by
        have h1 := retryBatch_ok_length script
          (loopJob entries st.translated src tgt i).batch 6 st.calls k1 sleeps ts hr
        rw [h1, loopJob_batch]
        simp [List.length_take, List.length_drop]
      have hf' : f = (entries.length - (i + 10) + 9) / 10 := by omega
      have hlen' : (st.translated ++ ts).length = min (i + 10) entries.length := by
        rw [List.length_append, hlen, hts]
        omega
      obtain ⟨m', hm'le, hiff, hlen2, hjn, hjs, hprog⟩ :=
        ih (i + 10)
          ⟨k1, st.translated ++ ts,
           st.jobs ++ [loopJob entries st.translated src tgt i],
           st.progressCalls ++ [((st.translated ++ ts).length, entries.length)],
           st.sleeps ++ sleeps⟩ hf' hlen'
      rcases hsplit : translateLoop script entries src tgt f (i + 10)
          ⟨k1, st.translated ++ ts,
           st.jobs ++ [loopJob entries st.translated src tgt i],
           st.progressCalls ++ [((st.translated ++ ts).length, entries.length)],
           st.sleeps ++ sleeps⟩ with ⟨fin, res2⟩
      rw [hsplit] at hiff hlen2 hjn hjs hprog
      dsimp only at hiff hlen2 hjn hjs hprog ⊢
      have hpre : st.translated <+: fin.translated := by
        have h1 := translateLoop_translated_prefix script entries src tgt f (i + 10)
          ⟨k1, st.translated ++ ts,
           st.jobs ++ [loopJob entries st.translated src tgt i],
           st.progressCalls ++ [((st.translated ++ ts).length, entries.length)],
           st.sleeps ++ sleeps⟩
        rw [hsplit] at h1
        exact (List.prefix_append st.translated ts).trans h1
      have hstable : loopJob entries st.translated src tgt i =
          loopJob entries fin.translated src tgt i :=
        loopJob_translated_stable entries src tgt i st.translated fin.translated hpre
          (by rw [hlen]; omega)
      have hjc : ∀ n,
          st.jobs ++ (List.range (n + 1)).map
            (fun b => loopJob entries fin.translated src tgt (i + 10 * b)) =
          st.jobs ++ [loopJob entries st.translated src tgt i] ++
            (List.range n).map
              (fun b => loopJob entries fin.translated src tgt (i + 10 + 10 * b)) := by
        intro n
        rw [range_map_succ_shift
          (fun b => loopJob entries fin.translated src tgt (i + 10 * b)) n]
        rw [List.append_assoc, List.singleton_append]
        congr 1
        congr 1
        · have h0 : i + 10 * 0 = i := by omega
          rw [h0]
          exact hstable.symm
        · apply List.map_congr_left
          intro b _
          dsimp only
          have hb : i + 10 * (b + 1) = i + 10 + 10 * b := by omega
          rw [hb]
      refine ⟨m' + 1, by omega, ?_, ?_, ?_, ?_, ?_⟩
      · rw [hiff]
        omega
      · rw [hlen2]
        omega
      · intro h2
        rw [hjn h2]
        exact (hjc m').symm
      · intro h2
        rw [hjs h2]
        exact (hjc (m' + 1)).symm
      · rw [hprog]
        rw [range_map_succ_shift
          (fun b => (min (i + 10 * (b + 1)) entries.length, entries.length)) m']
        rw [List.append_assoc, List.singleton_append]
        congr 1
        congr 1
        · dsimp only
          rw [hlen']
        · apply List.map_congr_left
          intro b _
          dsimp only
          have hb : i + 10 + 10 * (b + 1) = i + 10 * (b + 1 + 1) := by omega
          rw [hb]

lemma translate_subtitle_eq (script : Script) (entries : List SubtitleEntry)
    (src tgt : List Char) :
    translate_subtitle script entries src tgt =
      match translateLoop script entries src tgt ((entries.length + 10 - 1) / 10) 0
          TransTrace.init with
      | (st, some m) => (st, .error (.translationError m))
      | (st, none) =>
        match rebuildEntries entries st.translated with
        | .error m => (st, .error (.valueError m))
        | .ok es =>
          match checkSubtitle es with
          | .error m => (st, .error (.valueError m))
          | .ok es1 => (st, .ok es1) := rfl

lemma translate_subtitle_fst (script : Script) (entries : List SubtitleEntry)
    (src tgt : List Char) :
    (translate_subtitle script entries src tgt).1 =
      (translateLoop script entries src tgt ((entries.length + 10 - 1) / 10) 0
        TransTrace.init).1 := by
  rw [translate_subtitle_eq]
  rcases translateLoop script entries src tgt ((entries.length + 10 - 1) / 10) 0
      TransTrace.init with ⟨st, res⟩
  cases res with
  | none =>
    dsimp only
    cases rebuildEntries entries st.translated with
    | error m => rfl
    | ok es =>
      dsimp only
      cases checkSubtitle es with
      | error m => rfl
      | ok es1 => rfl
  | some m => rfl

lemma translate_subtitle_loop_done (script : Script) (entries : List SubtitleEntry)
    (src tgt : List Char) :
    isTranslationError (translate_subtitle script entries src tgt).2 = false ↔
      (translateLoop script entries src tgt ((entries.length + 10 - 1) / 10) 0
        TransTrace.init).2 = none := by
  rw [translate_subtitle_eq]
  rcases translateLoop script entries src tgt ((entries.length + 10 - 1) / 10) 0
      TransTrace.init with ⟨st, res⟩
  cases res with
  | none =>
    dsimp only
    cases rebuildEntries entries st.translated with
    | error m => simp [isTranslationError]
    | ok es =>
      dsimp only
      cases checkSubtitle es with
      | error m => simp [isTranslationError]
      | ok es1 => simp [isTranslationError]
  | some m => simp [isTranslationError]

/-- C2: when no batch fails, translating `K` entries issues exactly
`ceil(K/10)` batches, batch `b` holding the 10 sequential entries starting at
`10*b` (the last batch possibly smaller); every batch after the first carries
as context exactly the `(original, translated)` pairs of the 3 entries
immediately preceding it while the first batch has none; every batch except
the last carries as lookahead the up-to-3 entries immediately following it
while the last has none; and each batch's prompt is built from exactly these
pieces. -/
theorem c2_batching_context_lookahead (script : Script)
    (entries : List SubtitleEntry) (src tgt : List Char)
    (hok : isTranslationError (translate_subtitle script entries src tgt).2 = false) :
    (translate_subtitle script entries src tgt).1.jobs.length =
      (entries.length + 9) / 10 ∧
    (∀ b, b < (entries.length + 9) / 10 →
      ((translate_subtitle script entries src tgt).1.jobs.getD b default).batch =
        (entries.drop (10 * b)).take 10) ∧
    (∀ b, b < (entries.length + 9) / 10 →
      ((translate_subtitle script entries src tgt).1.jobs.getD b default).context =
        (if b = 0 then none
         else some ((List.range' (10 * b - 3) 3).map
           (fun j => ((entries.getD j default).text,
             (translate_subtitle script entries src tgt).1.translated.getD j []))))) ∧
    (∀ b, b < (entries.length + 9) / 10 →
      ((translate_subtitle script entries src tgt).1.jobs.getD b default).lookahead =
        (if b + 1 < (entries.length + 9) / 10
         then some ((entries.drop (10 * b + 10)).take 3)
         else none)) ∧
    (∀ b, b < (entries.length + 9) / 10 →
      ((translate_subtitle script entries src tgt).1.jobs.getD b default).prompt =
        mkBatchPrompt
          ((translate_subtitle script entries src tgt).1.jobs.getD b default).batch
          ((translate_subtitle script entries src tgt).1.jobs.getD b default).context
          ((translate_subtitle script entries src tgt).1.jobs.getD b default).lookahead
          src tgt) := by
  have hnone := (translate_subtitle_loop_done script entries src tgt).mp hok
  obtain ⟨m, hmle, hiff, hlen2, hjn, hjs, hprog⟩ :=
    translateLoop_spec script entries src tgt ((entries.length + 10 - 1) / 10) 0
      TransTrace.init (by omega) (by simp [TransTrace.init])
  have hm : m = (entries.length + 10 - 1) / 10 := hiff.mp hnone
  have hjobs := hjn hnone
  rw [show TransTrace.init.jobs = [] from rfl, List.nil_append] at hjobs
  simp only [Nat.zero_add] at hjobs
  have hfst := translate_subtitle_fst script entries src tgt
  refine ⟨?_, ?_, ?_, ?_, ?_⟩
  · rw [hfst, hjobs]
    simp only [List.length_map, List.length_range]
    omega
  · intro b hb
    have hbm : b < m := by omega
    rw [hfst, hjobs, getD_map_range _ _ _ hbm, loopJob_batch]
  · intro b hb
    have hbm : b < m := by omega
    rw [hfst, hjobs, getD_map_range _ _ _ hbm, loopJob_context]
    by_cases hb0 : b = 0
    · subst hb0
      simp
    · have h1 : 0 < 10 * b := by omega
      rw [if_pos h1, if_neg hb0]
      have h2 : 10 * b - (10 * b - 3) = 3 := by omega
      rw [h2]
  · intro b hb
    have hbm : b < m := by omega
    rw [hfst, hjobs, getD_map_range _ _ _ hbm, loopJob_lookahead]
    by_cases hcond : 10 * b + 10 < entries.length
    · rw [if_pos hcond, if_pos (by omega)]
    · rw [if_neg hcond, if_neg (by omega)]
  · intro b hb
    have hbm : b < m := by omega
    rw [hfst, hjobs, getD_map_range _ _ _ hbm]
    exact loopJob_prompt entries _ src tgt (10 * b)

/-- Witness for C2 at the 25-entry scenario: the hypothesis (no batch
failure) holds and the run issues exactly `ceil(25/10) = 3` batches. -/
theorem c2_batching_context_lookahead_witness :
    isTranslationError
        (translate_subtitle script25 (mkEntries 25) (chars "en") (chars "zh")).2
      = false ∧
    (translate_subtitle script25 (mkEntries 25) (chars "en")
        (chars "zh")).1.jobs.length = ((mkEntries 25).length + 9) / 10 :=
  ⟨by decide,
   (c2_batching_context_lookahead script25 (mkEntries 25) (chars "en") (chars "zh")
     (by decide)).1⟩

/-- C4: during `translate_subtitle` over `K` entries the progress callback
fires exactly once per successfully completed batch, with arguments
`(cumulative entries translated, K)`; the first argument is strictly
increasing across invocations; a failing batch fires no callback (it
contributes a job but no progress call); and on the 25-entry scenario the
invocations are exactly `(10,25), (20,25), (25,25)` in that order. -/
theorem c4_progress_per_successful_batch (script : Script)
    (entries : List SubtitleEntry) (src tgt : List Char) :
    (∃ m, m ≤ (entries.length + 9) / 10 ∧
      (translate_subtitle script entries src tgt).1.progressCalls =
        (List.range m).map
          (fun b => (min (10 * (b + 1)) entries.length, entries.length)) ∧
      (isTranslationError (translate_subtitle script entries src tgt).2 = false →
        m = (entries.length + 9) / 10) ∧
      (isTranslationError (translate_subtitle script entries src tgt).2 = true →
        (translate_subtitle script entries src tgt).1.jobs.length = m + 1)) ∧
    List.Chain' (fun p q : Nat × Nat => p.1 < q.1)
      (translate_subtitle script entries src tgt).1.progressCalls ∧
    (translate_subtitle script25 (mkEntries 25) (chars "en")
        (chars "zh")).1.progressCalls = [(10, 25), (20, 25), (25, 25)] := by
  obtain ⟨m, hmle, hiff, hlen2, hjn, hjs, hprog⟩ :=
    translateLoop_spec script entries src tgt ((entries.length + 10 - 1) / 10) 0
      TransTrace.init (by omega) (by simp [TransTrace.init])
  have hfst := translate_subtitle_fst script entries src tgt
  rw [show TransTrace.init.progressCalls = [] from rfl, List.nil_append] at hprog
  simp only [Nat.zero_add] at hprog
  have hchain : List.Chain' (fun p q : Nat × Nat => p.1 < q.1)
      ((List.range m).map
        (fun b => (min (10 * (b + 1)) entries.length, entries.length))) := by
    rw [List.chain'_iff_get]
    intro j hj
    simp only [List.length_map, List.length_range] at hj
    simp only [List.get_eq_getElem, List.getElem_map, List.getElem_range]
    omega
  refine ⟨⟨m, by omega, ?_, ?_, ?_⟩, ?_, ?_⟩
  · rw [hfst]
    exact hprog
  · intro h
    have hnone := (translate_subtitle_loop_done script entries src tgt).mp h
    have := hiff.mp hnone
    omega
  · intro h
    have hsome : (translateLoop script entries src tgt
        ((entries.length + 10 - 1) / 10) 0 TransTrace.init).2 ≠ none := by
      intro hn
      have hfalse := (translate_subtitle_loop_done script entries src tgt).mpr hn
      rw [h] at hfalse
      exact absurd hfalse (by simp)
    rw [hfst, hjs hsome]
    rw [show TransTrace.init.jobs = [] from rfl, List.nil_append]
    simp only [List.length_map, List.length_range]
  · rw [hfst, hprog]
    exact hchain
  · decide

/-- Witness for C4: the 25-entry scenario's exact progress invocations,
projected from the theorem at a concrete script. -/
theorem c4_progress_per_successful_batch_witness :
    (translate_subtitle script25 (mkEntries 25) (chars "en")
        (chars "zh")).1.progressCalls = [(10, 25), (20, 25), (25, 25)] :=
  (c4_progress_per_successful_batch script25 (mkEntries 25) (chars "en")
    (chars "zh")).2.2

/-! ## Decimal digits and integer parsing (round-trip support) -/

lemma digitChar_spec (d : Nat) :
    digitChar d = '0' ∨ digitChar d = '1' ∨ digitChar d = '2' ∨
    digitChar d = '3' ∨ digitChar d = '4' ∨ digitChar d = '5' ∨
    digitChar d = '6' ∨ digitChar d = '7' ∨ digitChar d = '8' ∨
    digitChar d = '9' := by
  rcases d with _|_|_|_|_|_|_|_|_|d
  · exact Or.inl rfl
  · exact Or.inr (Or.inl rfl)
  · exact Or.inr (Or.inr (Or.inl rfl))
  · exact Or.inr (Or.inr (Or.inr (Or.inl rfl)))
  · exact Or.inr (Or.inr (Or.inr (Or.inr (Or.inl rfl))))
  · exact Or.inr (Or.inr (Or.inr (Or.inr (Or.inr (Or.inl rfl)))))
  · exact Or.inr (Or.inr (Or.inr (Or.inr (Or.inr (Or.inr (Or.inl rfl))))))
  · exact Or.inr (Or.inr (Or.inr (Or.inr (Or.inr (Or.inr (Or.inr (Or.inl rfl)))))))
  · exact Or.inr (Or.inr (Or.inr (Or.inr (Or.inr (Or.inr (Or.inr (Or.inr (Or.inl rfl))))))))
  · exact Or.inr (Or.inr (Or.inr (Or.inr (Or.inr (Or.inr (Or.inr (Or.inr (Or.inr rfl))))))))

lemma digitChar_ne_newline (d : Nat) : digitChar d ≠ '\n' := by
  rcases digitChar_spec d with h|h|h|h|h|h|h|h|h|h <;> rw [h] <;> decide

lemma digitChar_not_space (d : Nat) : isSpace (digitChar d) = false := by
  rcases digitChar_spec d with h|h|h|h|h|h|h|h|h|h <;> rw [h] <;> decide

lemma digitChar_ne_minus (d : Nat) : digitChar d ≠ '-' := by
  rcases digitChar_spec d with h|h|h|h|h|h|h|h|h|h <;> rw [h] <;> decide

lemma digitChar_ne_plus (d : Nat) : digitChar d ≠ '+' := by
  rcases digitChar_spec d with h|h|h|h|h|h|h|h|h|h <;> rw [h] <;> decide

lemma isDigitChar_digitChar (d : Nat) : isDigitChar (digitChar d) = true := by
  rcases digitChar_spec d with h|h|h|h|h|h|h|h|h|h <;> rw [h] <;> decide

lemma charDigit_digitChar (d : Nat) (h : d < 10) : charDigit (digitChar d) = some d := by
  interval_cases d <;> rfl

lemma natReprAux_mem : ∀ f n c, c ∈ natReprAux f n → ∃ d, c = digitChar d := by
  intro f
  induction f with
  | zero => intro n c h; simp [natReprAux] at h
  | succ f ih =>
    intro n c h
    unfold natReprAux at h
    by_cases hn : n < 10
    · rw [if_pos hn] at h
      simp only [List.mem_singleton] at h
      exact ⟨n, h⟩
    · rw [if_neg hn] at h
      rcases List.mem_append.mp h with h1 | h1
      · exact ih _ _ h1
      · simp only [List.mem_singleton] at h1
        exact ⟨n % 10, h1⟩

lemma natRepr_mem (n : Nat) (c : Char) (h : c ∈ natRepr n) : ∃ d, c = digitChar d :=
  natReprAux_mem _ _ _ h

lemma natRepr_ne_nil (n : Nat) : natRepr n ≠ [] := by
  rw [natRepr_eq]
  by_cases h : n < 10
  · simp [h]
  · simp [h]

lemma natRepr_head_digit (n : Nat) : ∃ d t, natRepr n = digitChar d :: t := by
  rcases hr : natRepr n with _ | ⟨c, t⟩
  · exact absurd hr (natRepr_ne_nil n)
  · have hc : c ∈ natRepr n := by rw [hr]; exact List.mem_cons_self c t
    obtain ⟨d, hd⟩ := natRepr_mem n c hc
    exact ⟨d, t, by rw [hd]⟩

lemma digitsVal_append_digit (l : List Char) (c : Char) :
    digitsVal (l ++ [c]) = digitsVal l * 10 + (charDigit c).getD 0 := by
  unfold digitsVal
  rw [List.foldl_append]
  rfl

lemma digitsVal_natRepr : ∀ n, digitsVal (natRepr n) = n := by
  intro n
  induction n using Nat.strong_induction_on with
  | _ n ih =>
    rw [natRepr_eq]
    by_cases h : n < 10
    · rw [if_pos h]
      show digitsVal [digitChar n] = n
      unfold digitsVal
      simp [charDigit_digitChar n h]
    · rw [if_neg h]
      rw [digitsVal_append_digit]
      rw [ih (n / 10) (by omega)]
      rw [charDigit_digitChar (n % 10) (by omega)]
      show n / 10 * 10 + (n % 10) = n
      omega

lemma natRepr_all_digits (n : Nat) : (natRepr n).all isDigitChar = true := by
  rw [List.all_eq_true]
  intro c hc
  obtain ⟨d, rfl⟩ := natRepr_mem n c hc
  exact isDigitChar_digitChar d

lemma pyParseInt_digits (c : Char) (t : List Char) (hc : c ≠ '-') (hc2 : c ≠ '+')
    (hall : (c :: t).all isDigitChar = true) :
    pyParseInt (c :: t) = .ok ((digitsVal (c :: t) : Nat) : Int) := by
  unfold pyParseInt
  dsimp only
  split
  · rename_i rest heq
    exact absurd (List.head_eq_of_cons_eq heq.symm) (Ne.symm hc)
  · rename_i rest heq
    exact absurd (List.head_eq_of_cons_eq heq.symm) (Ne.symm hc2)
  · rw [if_pos ⟨List.cons_ne_nil c t, hall⟩]
    simp

lemma pyParseInt_natRepr (n : Nat) : pyParseInt (natRepr n) = .ok ((n : Nat) : Int) := by
  obtain ⟨d, t, ht⟩ := natRepr_head_digit n
  rw [ht]
  rw [pyParseInt_digits (digitChar d) t (digitChar_ne_minus d) (digitChar_ne_plus d)
    (by rw [← ht]; exact natRepr_all_digits n)]
  rw [← ht, digitsVal_natRepr]

/-! ## Split, join and strip inverses -/

lemma splitChar_append_sep (sep : Char) :
    ∀ a rest, (∀ c ∈ a, c ≠ sep) →
      splitChar sep (a ++ sep :: rest) = a :: splitChar sep rest := by
  intro a
  induction a with
  | nil =>
    intro rest _
    show splitChar sep (sep :: rest) = [] :: splitChar sep rest
    simp [splitChar]
  | cons c a' ih =>
    intro rest h
    have hc : c ≠ sep := h c (List.mem_cons_self c a')
    have h' : ∀ x ∈ a', x ≠ sep := fun x hx => h x (List.mem_cons_of_mem c hx)
    show splitChar sep (c :: (a' ++ sep :: rest)) = (c :: a') :: splitChar sep rest
    simp only [splitChar, if_neg hc]
    rw [ih rest h']

lemma splitChar_no_sep (sep : Char) :
    ∀ l, (∀ c ∈ l, c ≠ sep) → splitChar sep l = [l] := by
  intro l
  induction l with
  | nil => intro _; rfl
  | cons c t ih =>
    intro h
    have hc : c ≠ sep := h c (List.mem_cons_self c t)
    have h' : ∀ x ∈ t, x ≠ sep := fun x hx => h x (List.mem_cons_of_mem c hx)
    simp only [splitChar, if_neg hc]
    rw [ih h']

lemma joinSep_splitChar (sep : Char) : ∀ l, joinSep [sep] (splitChar sep l) = l := by
  intro l
  induction l with
  | nil => rfl
  | cons c t ih =>
    by_cases hc : c = sep
    · subst hc
      show joinSep [c] (splitChar c (c :: t)) = c :: t
      simp only [splitChar, if_pos rfl]
      rcases hs : splitChar c t with _ | ⟨h1, t1⟩
      · exact absurd hs (splitChar_ne_nil c t)
      · show joinSep [c] ([] :: h1 :: t1) = c :: t
        show [] ++ [c] ++ joinSep [c] (h1 :: t1) = c :: t
        rw [← hs, ih]
        rfl
    · simp only [splitChar, if_neg hc]
      rcases hs : splitChar sep t with _ | ⟨h1, t1⟩
      · exact absurd hs (splitChar_ne_nil sep t)
      · rw [hs] at ih
        cases t1 with
        | nil =>
          show c :: h1 = c :: t
          have : joinSep [sep] [h1] = h1 := rfl
          rw [this] at ih
          rw [ih]
        | cons h2 t2 =>
          show (c :: h1) ++ [sep] ++ joinSep [sep] (h2 :: t2) = c :: t
          have : joinSep [sep] (h1 :: h2 :: t2) = h1 ++ [sep] ++ joinSep [sep] (h2 :: t2) := rfl
          rw [this] at ih
          rw [← ih]
          simp

lemma dropWhile_head_false {p : Char → Bool} :
    ∀ (l : List Char) (x : Char) (xs : List Char),
      l.dropWhile p = x :: xs → p x = false := by
  intro l
  induction l with
  | nil => intro x xs h; simp at h
  | cons c t ih =>
    intro x xs h
    rw [List.dropWhile_cons] at h
    by_cases hc : p c = true
    · rw [if_pos hc] at h
      exact ih x xs h
    · rw [if_neg hc] at h
      have : c = x := List.head_eq_of_cons_eq h
      rw [← this]
      exact Bool.eq_false_iff.mpr hc

lemma pyStrip_eq_self (l : List Char)
    (hh : ∀ c, l.head? = some c → isSpace c = false)
    (hl : ∀ c, l.getLast? = some c → isSpace c = false) : pyStrip l = l := by
  cases l with
  | nil => rfl
  | cons c t =>
    unfold pyStrip
    rw [List.dropWhile_cons, if_neg (by rw [hh c rfl]; simp)]
    rcases hrev : (c :: t).reverse with _ | ⟨d, r⟩
    · exact absurd hrev (by simp)
    · have hd : (c :: t).getLast? = some d := by
        rw [← List.head?_reverse, hrev]
        rfl
      rw [List.dropWhile_cons, if_neg (by rw [hl d hd]; simp)]
      rw [← hrev, List.reverse_reverse]

lemma pyStrip_self_head (l : List Char) (h : pyStrip l = l) :
    ∀ c, l.head? = some c → isSpace c = false := by
  intro c hc
  cases l with
  | nil => simp at hc
  | cons a t =>
    have hac : a = c := by
      simp only [List.head?_cons, Option.some.injEq] at hc
      exact hc
    subst hac
    by_contra hsp
    have hsp' : isSpace a = true := by
      cases hb : isSpace a
      · exact absurd hb hsp
      · rfl
    have hlen : (pyStrip (a :: t)).length ≤ t.length := by
      unfold pyStrip
      rw [List.dropWhile_cons, if_pos hsp']
      calc ((t.dropWhile isSpace).reverse.dropWhile isSpace).reverse.length
          = ((t.dropWhile isSpace).reverse.dropWhile isSpace).length := by
            rw [List.length_reverse]
        _ ≤ (t.dropWhile isSpace).reverse.length :=
            (List.dropWhile_sublist _).length_le
        _ = (t.dropWhile isSpace).length := by rw [List.length_reverse]
        _ ≤ t.length := (List.dropWhile_sublist _).length_le
    rw [h] at hlen
    simp at hlen

lemma pyStrip_self_last (l : List Char) (h : pyStrip l = l) :
    ∀ c, l.getLast? = some c → isSpace c = false := by
  intro c hc
  have hrev : l.reverse = ((l.dropWhile isSpace).reverse.dropWhile isSpace) := by
    conv_lhs => rw [← h]
    unfold pyStrip
    rw [List.reverse_reverse]
  rw [← List.head?_reverse, hrev] at hc
  rcases hd : (l.dropWhile isSpace).reverse.dropWhile isSpace with _ | ⟨d, r⟩
  · rw [hd] at hc; simp at hc
  · rw [hd] at hc
    simp only [List.head?_cons, Option.some.injEq] at hc
    subst hc
    exact dropWhile_head_false _ _ _ hd

/-! ## Timestamp serialization and parsing -/

lemma natRepr_lt10 (n : Nat) (h : n < 10) : natRepr n = [digitChar n] := by
  rw [natRepr_eq, if_pos h]

lemma natRepr_two_digits (n : Nat) (h1 : 10 ≤ n) (h2 : n < 100) :
    natRepr n = [digitChar (n / 10), digitChar (n % 10)] := by
  rw [natRepr_eq, if_neg (by omega), natRepr_lt10 (n / 10) (by omega)]
  rfl

lemma natRepr_three_digits (n : Nat) (h1 : 100 ≤ n) (h2 : n < 1000) :
    natRepr n = [digitChar (n / 100), digitChar (n / 10 % 10), digitChar (n % 10)] := by
  rw [natRepr_eq, if_neg (by omega), natRepr_two_digits (n / 10) (by omega) (by omega)]
  have e1 : n / 10 / 10 = n / 100 := by omega
  have e2 : n / 10 % 10 = n / 10 % 10 := rfl
  rw [e1]
  rfl

lemma fmtPad2_digits (x : Nat) (h : x < 100) :
    fmtPad 2 (x : Int) = [digitChar (x / 10), digitChar (x % 10)] := by
  unfold fmtPad
  rw [if_neg (by omega : ¬((x : Int) < 0))]
  have habs : ((x : Int)).natAbs = x := rfl
  rw [habs]
  by_cases hx : x < 10
  · rw [natRepr_lt10 x hx]
    have hx10 : x / 10 = 0 := by omega
    have hxm : x % 10 = x := by omega
    rw [hx10, hxm]
    rfl
  · rw [natRepr_two_digits x (by omega) h]
    rfl

lemma fmtPad3_digits (x : Nat) (h : x < 1000) :
    fmtPad 3 (x : Int) =
      [digitChar (x / 100), digitChar (x / 10 % 10), digitChar (x % 10)] := by
  unfold fmtPad
  rw [if_neg (by omega : ¬((x : Int) < 0))]
  have habs : ((x : Int)).natAbs = x := rfl
  rw [habs]
  by_cases hx : x < 10
  · rw [natRepr_lt10 x hx]
    have e1 : x / 100 = 0 := by omega
    have e2 : x / 10 % 10 = 0 := by omega
    have e3 : x % 10 = x := by omega
    rw [e1, e2, e3]
    rfl
  · by_cases hx2 : x < 100
    · rw [natRepr_two_digits x (by omega) hx2]
      have e1 : x / 100 = 0 := by omega
      have e2 : x / 10 % 10 = x / 10 := by omega
      rw [e1, e2]
      rfl
    · rw [natRepr_three_digits x (by omega) h]
      rfl

lemma readDigit2_digits (a b : Nat) (ha : a < 10) (hb : b < 10) (rest : List Char) :
    readDigit2 (digitChar a :: digitChar b :: rest) = some (a * 10 + b, rest) := by
  unfold readDigit2
  dsimp only
  rw [charDigit_digitChar a ha, charDigit_digitChar b hb]
  rfl

lemma readDigit3_digits (a b c : Nat) (ha : a < 10) (hb : b < 10) (hc : c < 10)
    (rest : List Char) :
    readDigit3 (digitChar a :: digitChar b :: digitChar c :: rest) =
      some (a * 100 + b * 10 + c, rest) := by
  unfold readDigit3
  dsimp only
  rw [charDigit_digitChar a ha, charDigit_digitChar b hb, charDigit_digitChar c hc]
  rfl

lemma expectChar_cons (c : Char) (rest : List Char) :
    expectChar c (c :: rest) = some rest := by
  unfold expectChar
  dsimp only
  rw [if_pos rfl]

lemma readTimestamp_of_parts (H M S MS : Nat) (hH : H < 100) (hM : M < 60)
    (hS : S < 60) (hMS : MS < 1000) (rest : List Char) :
    readTimestamp ((fmtPad 2 (H : Int) ++ ':' :: (fmtPad 2 (M : Int) ++
        ':' :: (fmtPad 2 (S : Int) ++ ',' :: fmtPad 3 (MS : Int)))) ++ rest) =
      some ((((H * 3600 + M * 60 + S) * 1000 + MS : Nat) : Int) * 1000, rest) := by
  rw [fmtPad2_digits H hH, fmtPad2_digits M (by omega), fmtPad2_digits S (by omega),
    fmtPad3_digits MS hMS]
  simp only [List.cons_append, List.nil_append, List.append_assoc]
  unfold readTimestamp
  rw [readDigit2_digits (H / 10) (H % 10) (by omega) (by omega)]
  simp only [Option.bind_eq_bind, Option.some_bind]
  rw [expectChar_cons]
  simp only [Option.some_bind]
  rw [readDigit2_digits (M / 10) (M % 10) (by omega) (by omega)]
  simp only [Option.some_bind]
  rw [expectChar_cons]
  simp only [Option.some_bind]
  rw [readDigit2_digits (S / 10) (S % 10) (by omega) (by omega)]
  simp only [Option.some_bind]
  rw [expectChar_cons]
  simp only [Option.some_bind]
  rw [readDigit3_digits (MS / 100) (MS / 10 % 10) (MS % 10) (by omega) (by omega)
    (by omega)]
  simp only [Option.some_bind]
  have e1 : H / 10 * 10 + H % 10 = H := by omega
  have e2 : M / 10 * 10 + M % 10 = M := by omega
  have e3 : S / 10 * 10 + S % 10 = S := by omega
  have e4 : MS / 100 * 100 + MS / 10 % 10 * 10 + MS % 10 = MS := by omega
  rw [e1, e2, e3, e4]

lemma srtTimestamp_natCast (n : Nat) :
    srtTimestamp (n : Int) =
      fmtPad 2 ((n / 1000000 / 3600 : Nat) : Int) ++
        ':' :: (fmtPad 2 ((n / 1000000 % 3600 / 60 : Nat) : Int) ++
        ':' :: (fmtPad 2 ((n / 1000000 % 60 : Nat) : Int) ++
        ',' :: fmtPad 3 ((n % 1000000 / 1000 : Nat) : Int))) := by
  unfold srtTimestamp
  dsimp only
  have e1 : Int.tdiv (n : Int) 1000000 = ((n / 1000000 : Nat) : Int) := rfl
  have e2 : Int.fdiv ((n / 1000000 : Nat) : Int) 3600 =
      ((n / 1000000 / 3600 : Nat) : Int) := by
    rw [Int.fdiv_eq_tdiv (by positivity) (by positivity)]
    rfl
  have e3 : Int.emod ((n / 1000000 : Nat) : Int) 3600 =
      ((n / 1000000 % 3600 : Nat) : Int) := by
    show ((n / 1000000 : Nat) : Int) % 3600 = ((n / 1000000 % 3600 : Nat) : Int)
    omega
  have e4 : Int.fdiv ((n / 1000000 % 3600 : Nat) : Int) 60 =
      ((n / 1000000 % 3600 / 60 : Nat) : Int) := by
    rw [Int.fdiv_eq_tdiv (by positivity) (by positivity)]
    rfl
  have e5 : Int.emod ((n / 1000000 : Nat) : Int) 60 =
      ((n / 1000000 % 60 : Nat) : Int) := by
    show ((n / 1000000 : Nat) : Int) % 60 = ((n / 1000000 % 60 : Nat) : Int)
    omega
  have e6 : Int.emod (n : Int) 1000000 = ((n % 1000000 : Nat) : Int) := by
    show (n : Int) % 1000000 = ((n % 1000000 : Nat) : Int)
    omega
  have e7 : Int.fdiv ((n % 1000000 : Nat) : Int) 1000 =
      ((n % 1000000 / 1000 : Nat) : Int) := by
    rw [Int.fdiv_eq_tdiv (by positivity) (by positivity)]
    rfl
  rw [e1, e2, e3, e4, e5, e6, e7]
  have hc : chars ":" = [':'] := rfl
  have hc2 : chars "," = [','] := rfl
  rw [hc, hc2]
  simp [List.append_assoc]

lemma srtTimestamp_parse (n : Nat) (hlt : n < 360000000000) (hmod : n % 1000 = 0)
    (rest : List Char) :
    readTimestamp (srtTimestamp (n : Int) ++ rest) = some ((n : Int), rest) := by
  rw [srtTimestamp_natCast]
  have h := readTimestamp_of_parts (n / 1000000 / 3600) (n / 1000000 % 3600 / 60)
    (n / 1000000 % 60) (n % 1000000 / 1000) (by omega) (by omega) (by omega)
    (by omega) rest
  rw [h]
  have e : (((n / 1000000 / 3600) * 3600 + (n / 1000000 % 3600 / 60) * 60 +
      n / 1000000 % 60) * 1000 + n % 1000000 / 1000) * 1000 = n := by omega
  congr 1
  rw [Prod.mk.injEq]
  refine ⟨?_, rfl⟩
  rw [show (((n / 1000000 / 3600) * 3600 + (n / 1000000 % 3600 / 60) * 60 +
      n / 1000000 % 60) * 1000 + n % 1000000 / 1000 : Nat) * (1000 : Int) =
    ((((n / 1000000 / 3600) * 3600 + (n / 1000000 % 3600 / 60) * 60 +
      n / 1000000 % 60) * 1000 + n % 1000000 / 1000) * 1000 : Nat) from by push_cast; ring]
  rw [e]

/-! ## The timing line -/

lemma srtTimestamp_head (n : Nat) (h : n < 360000000000) :
    ∃ d t, srtTimestamp (n : Int) = digitChar d :: t := by
  rw [srtTimestamp_natCast, fmtPad2_digits (n / 1000000 / 3600) (by omega)]
  exact ⟨n / 1000000 / 3600 / 10, _, rfl⟩

lemma srtTimestamp_chars (n : Nat) (h : n < 360000000000) :
    ∀ c ∈ srtTimestamp (n : Int), c = ':' ∨ c = ',' ∨ ∃ d, c = digitChar d := by
  intro c hc
  rw [srtTimestamp_natCast, fmtPad2_digits (n / 1000000 / 3600) (by omega),
    fmtPad2_digits (n / 1000000 % 3600 / 60) (by omega),
    fmtPad2_digits (n / 1000000 % 60) (by omega),
    fmtPad3_digits (n % 1000000 / 1000) (by omega)] at hc
  simp only [List.cons_append, List.nil_append] at hc
  simp only [List.mem_cons, List.not_mem_nil, or_false] at hc
  rcases hc with h1|h1|h1|h1|h1|h1|h1|h1|h1|h1|h1|h1 <;> subst h1 <;>
    first
      | exact Or.inl rfl
      | exact Or.inr (Or.inl rfl)
      | exact Or.inr (Or.inr ⟨_, rfl⟩)

lemma srtTimestamp_no_newline (n : Nat) (h : n < 360000000000) :
    ∀ c ∈ srtTimestamp (n : Int), c ≠ '\n' := by
  intro c hc
  rcases srtTimestamp_chars n h c hc with h1 | h1 | ⟨d, h1⟩ <;> subst h1
  · decide
  · decide
  · exact digitChar_ne_newline d

lemma srtTimestamp_space_false (n : Nat) (h : n < 360000000000) :
    ∀ c ∈ srtTimestamp (n : Int), isSpace c = false := by
  intro c hc
  rcases srtTimestamp_chars n h c hc with h1 | h1 | ⟨d, h1⟩ <;> subst h1
  · decide
  · decide
  · exact digitChar_not_space d

lemma srtTimestamp_last (n : Nat) (h : n < 360000000000) :
    ∃ d, (srtTimestamp (n : Int)).getLast? = some (digitChar d) := by
  rw [srtTimestamp_natCast, fmtPad2_digits (n / 1000000 / 3600) (by omega),
    fmtPad2_digits (n / 1000000 % 3600 / 60) (by omega),
    fmtPad2_digits (n / 1000000 % 60) (by omega),
    fmtPad3_digits (n % 1000000 / 1000) (by omega)]
  refine ⟨n % 1000000 / 1000 % 10, ?_⟩
  rfl

lemma parseTimingLine_srt (n1 n2 : Nat)
    (h1 : n1 < 360000000000) (hm1 : n1 % 1000 = 0)
    (h2 : n2 < 360000000000) (hm2 : n2 % 1000 = 0) :
    parseTimingLine (srtTimestamp (n1 : Int) ++
        ' ' :: '-' :: '-' :: '>' :: ' ' :: srtTimestamp (n2 : Int)) =
      some ((n1 : Int), (n2 : Int)) := by
  unfold parseTimingLine
  rw [srtTimestamp_parse n1 h1 hm1]
  simp only [Option.bind_eq_bind, Option.some_bind]
  rw [List.dropWhile_cons, if_pos (by decide : isSpace ' ' = true),
    List.dropWhile_cons, if_neg (by decide : ¬isSpace '-' = true)]
  rw [expectChar_cons]
  simp only [Option.some_bind]
  rw [expectChar_cons]
  simp only [Option.some_bind]
  have hgt : expectChar '>' ('>' :: ' ' :: srtTimestamp (n2 : Int)) =
      some (' ' :: srtTimestamp (n2 : Int)) := expectChar_cons '>' _
  rw [hgt]
  simp only [Option.some_bind]
  rw [List.dropWhile_cons, if_pos (by decide : isSpace ' ' = true)]
  obtain ⟨d, t, hd⟩ := srtTimestamp_head n2 h2
  rw [hd, List.dropWhile_cons, if_neg (by rw [digitChar_not_space d]; simp), ← hd]
  rw [show srtTimestamp (n2 : Int) = srtTimestamp (n2 : Int) ++ [] from
    (List.append_nil _).symm]
  rw [srtTimestamp_parse n2 h2 hm2]
  rfl

/-! ## Block shape -/

lemma getLast?_append_right {α : Type} (l1 l2 : List α) (h : l2 ≠ []) :
    (l1 ++ l2).getLast? = l2.getLast? := by
  rw [← List.head?_reverse, ← List.head?_reverse, List.reverse_append]
  rcases hl : l2.reverse with _ | ⟨x, xs⟩
  · exact absurd (by simpa using congrArg List.reverse hl) h
  · rfl

lemma pyStrip_eq_self_of_all (l : List Char) (h : ∀ c ∈ l, isSpace c = false) :
    pyStrip l = l := by
  apply pyStrip_eq_self
  · intro c hc
    exact h c (List.mem_of_mem_head? (by rw [hc]; exact rfl))
  · intro c hc
    exact h c (List.mem_of_mem_getLast? (by rw [hc]; exact rfl))

lemma natRepr_no_newline (n : Nat) : ∀ c ∈ natRepr n, c ≠ '\n' := by
  intro c hc
  obtain ⟨d, rfl⟩ := natRepr_mem n c hc
  exact digitChar_ne_newline d

lemma natRepr_space_false (n : Nat) : ∀ c ∈ natRepr n, isSpace c = false := by
  intro c hc
  obtain ⟨d, rfl⟩ := natRepr_mem n c hc
  exact digitChar_not_space d

lemma pyStrip_natRepr (n : Nat) : pyStrip (natRepr n) = natRepr n :=
  pyStrip_eq_self_of_all _ (natRepr_space_false n)

lemma srtBlock_shape (e : SubtitleEntry) (hidx : 0 ≤ e.index) (hs : 0 ≤ e.start)
    (ht : 0 ≤ e.stop) :
    srtBlock e = natRepr e.index.natAbs ++ '\n' ::
      ((srtTimestamp ((e.start.toNat : Nat) : Int) ++
        ' ' :: '-' :: '-' :: '>' :: ' ' :: srtTimestamp ((e.stop.toNat : Nat) : Int)) ++
        '\n' :: e.text) := by
  unfold srtBlock intRepr
  rw [if_neg (by omega : ¬e.index < 0)]
  rw [Int.toNat_of_nonneg hs, Int.toNat_of_nonneg ht]
  have h1 : chars "\n" = ['\n'] := rfl
  have h2 : chars " --> " = [' ', '-', '-', '>', ' '] := rfl
  rw [h1, h2]
  simp [List.append_assoc]

lemma noDoubleNewline_iff : ∀ l : List Char, noDoubleNewline l = true ↔
    List.Chain' (fun a b => ¬(a = '\n' ∧ b = '\n')) l
  | [] => by simp [noDoubleNewline]
  | [a] => by simp [noDoubleNewline]
  | a :: b :: t => by
    rw [List.chain'_cons, ← noDoubleNewline_iff (b :: t)]
    show (!(a = '\n' && b = '\n') && noDoubleNewline (b :: t)) = true ↔ _
    rw [Bool.and_eq_true, Bool.not_eq_true']
    constructor
    · intro h
      refine ⟨?_, h.2⟩
      intro hcon
      rw [hcon.1, hcon.2] at h
      simp at h
    · intro h
      refine ⟨?_, h.2⟩
      by_cases ha : a = '\n'
      · by_cases hb : b = '\n'
        · exact absurd ⟨ha, hb⟩ h.1
        · rw [ha]
          simp [hb]
      · simp [ha]

/-! ## One block round-trips -/

lemma timing_no_newline (n1 n2 : Nat) (h1 : n1 < 360000000000)
    (h2 : n2 < 360000000000) :
    ∀ c ∈ srtTimestamp (n1 : Int) ++
        ' ' :: '-' :: '-' :: '>' :: ' ' :: srtTimestamp (n2 : Int), c ≠ '\n' := by
  intro c hc
  rcases List.mem_append.mp hc with hm | hm
  · exact srtTimestamp_no_newline n1 h1 c hm
  · simp only [List.mem_cons] at hm
    rcases hm with rfl | rfl | rfl | rfl | rfl | hm
    · decide
    · decide
    · decide
    · decide
    · decide
    · exact srtTimestamp_no_newline n2 h2 c hm

lemma pyStrip_block (A TL text : List Char)
    (hA : ∃ d t, A = digitChar d :: t)
    (htext : text ≠ [])
    (hlast : ∀ c, text.getLast? = some c → isSpace c = false) :
    pyStrip (A ++ '\n' :: (TL ++ '\n' :: text)) = A ++ '\n' :: (TL ++ '\n' :: text) := by
  apply pyStrip_eq_self
  · intro c hc
    obtain ⟨d, t, hd⟩ := hA
    rw [hd] at hc
    simp only [List.cons_append, List.head?_cons, Option.some.injEq] at hc
    rw [← hc]
    exact digitChar_not_space d
  · intro c hc
    rw [getLast?_append_right _ _ (by simp)] at hc
    rw [show ('\n' :: (TL ++ '\n' :: text)) = ['\n'] ++ (TL ++ '\n' :: text)
      from rfl] at hc
    rw [getLast?_append_right _ _ (by simp)] at hc
    rw [getLast?_append_right _ _ (by simp)] at hc
    rw [show ('\n' :: text) = ['\n'] ++ text from rfl] at hc
    rw [getLast?_append_right _ _ htext] at hc
    exact hlast c hc

lemma pyStrip_timing (n1 n2 : Nat) (h1 : n1 < 360000000000) (h2 : n2 < 360000000000) :
    pyStrip (srtTimestamp (n1 : Int) ++
        ' ' :: '-' :: '-' :: '>' :: ' ' :: srtTimestamp (n2 : Int)) =
      srtTimestamp (n1 : Int) ++
        ' ' :: '-' :: '-' :: '>' :: ' ' :: srtTimestamp (n2 : Int) := by
  apply pyStrip_eq_self
  · intro c hc
    obtain ⟨d, t, hd⟩ := srtTimestamp_head n1 h1
    rw [hd] at hc
    simp only [List.cons_append, List.head?_cons, Option.some.injEq] at hc
    rw [← hc]
    exact digitChar_not_space d
  · intro c hc
    obtain ⟨d2, t2, hd2⟩ := srtTimestamp_head n2 h2
    rw [show (' ' :: '-' :: '-' :: '>' :: ' ' :: srtTimestamp (n2 : Int)) =
        [' ', '-', '-', '>', ' '] ++ srtTimestamp (n2 : Int) from rfl] at hc
    rw [getLast?_append_right _ _ (by rw [hd2]; simp)] at hc
    rw [getLast?_append_right _ _ (by rw [hd2]; simp)] at hc
    obtain ⟨d3, hd3⟩ := srtTimestamp_last n2 h2
    rw [hd3] at hc
    simp only [Option.some.injEq] at hc
    rw [← hc]
    exact digitChar_not_space d3

lemma parseSrtBlock_srtBlock (e : SubtitleEntry) (hv : validEntry e = true)
    (hr : roundTrippable e = true) : parseSrtBlock (srtBlock e) = .ok e := by
  simp only [validEntry, Bool.and_eq_true, decide_eq_true_eq] at hv
  obtain ⟨⟨hlt, hidx⟩, htext⟩ := hv
  simp only [roundTrippable, Bool.and_eq_true, decide_eq_true_eq] at hr
  obtain ⟨⟨⟨⟨⟨⟨⟨hs0, hsm⟩, hslt⟩, ht0⟩, htm⟩, htlt⟩, hstrip⟩, hndn⟩ := hr
  have hchain := (noDoubleNewline_iff e.text).mp hndn
  have hsm' : e.start % 1000 = 0 := hsm
  have htm' : e.stop % 1000 = 0 := htm
  have htne : e.text ≠ [] := fun hnil => htext (by rw [hnil]; rfl)
  have hn1lt : e.start.toNat < 360000000000 := by omega
  have hn2lt : e.stop.toNat < 360000000000 := by omega
  have hn1m : e.start.toNat % 1000 = 0 := by omega
  have hn2m : e.stop.toNat % 1000 = 0 := by omega
  rw [srtBlock_shape e (by omega) hs0 ht0]
  unfold parseSrtBlock
  rw [pyStrip_block _ _ _ (by
      obtain ⟨d, t, hd⟩ := natRepr_head_digit e.index.natAbs
      exact ⟨d, t, hd⟩)
    htne (pyStrip_self_last e.text hstrip)]
  rw [splitChar_append_sep '\n' _ _ (natRepr_no_newline e.index.natAbs)]
  rw [splitChar_append_sep '\n' _ _ (timing_no_newline _ _ hn1lt hn2lt)]
  rw [if_neg (by
    simp only [List.length_cons]
    have : 0 < (splitChar '\n' e.text).length :=
      List.length_pos.mpr (splitChar_ne_nil '\n' e.text)
    omega)]
  rw [show ∀ (a b : List Char) (s : List (List Char)), (a :: b :: s).getD 0 [] = a
    from fun a b s => rfl]
  rw [show ∀ (a b : List Char) (s : List (List Char)), (a :: b :: s).getD 1 [] = b
    from fun a b s => rfl]
  rw [show ∀ (a b : List Char) (s : List (List Char)), (a :: b :: s).drop 2 = s
    from fun a b s => rfl]
  rw [pyStrip_natRepr, pyParseInt_natRepr]
  rw [show ((e.index.natAbs : Nat) : Int) = e.index from Int.natAbs_of_nonneg (by omega)]
  rw [pyStrip_timing _ _ hn1lt hn2lt]
  rw [parseTimingLine_srt _ _ hn1lt hn1m hn2lt hn2m]
  dsimp only
  rw [Int.toNat_of_nonneg hs0, Int.toNat_of_nonneg ht0]
  rw [show chars "\n" = ['\n'] from rfl]
  rw [joinSep_splitChar '\n' e.text, hstrip]
  unfold mkSubtitleEntry
  simp only [Bind.bind, Except.bind]
  rw [if_neg (by omega : ¬e.start ≥ e.stop), if_neg (by omega : ¬e.index < 1),
    if_neg (by rw [hstrip]; exact htne)]

/-! ## Blank-line block splitting -/

lemma splitBlocksAux_sep_eq (f : Nat) (rest : List Char) :
    splitBlocksAux (f + 1) ('\n' :: '\n' :: rest) =
      [] :: splitBlocksAux f (rest.dropWhile (fun c => c = '\n')) := rfl

lemma splitBlocksAux_cons_ne (f : Nat) (c c2 : Char) (t2 : List Char) (hh : List Char)
    (tt : List (List Char)) (h : ¬(c = '\n' ∧ c2 = '\n'))
    (hrec : splitBlocksAux f (c2 :: t2) = hh :: tt) :
    splitBlocksAux (f + 1) (c :: c2 :: t2) = (c :: hh) :: tt := by
  unfold splitBlocksAux
  split
  · omega
  · rename_i a b hne heq
    exact absurd hne (by simp)
  · rename_i fuel rest heq1 heq2
    simp only [List.cons.injEq] at heq2
    exact absurd ⟨heq2.1, heq2.2.1⟩ h
  · rename_i fuel cc rest hcond heq1 heq2
    have hf : fuel = f := by omega
    subst hf
    simp only [List.cons.injEq] at heq2
    rw [← heq2.2, hrec, ← heq2.1]

lemma splitBlocksAux_one (f : Nat) (c : Char) : splitBlocksAux (f + 1) [c] = [[c]] := by
  unfold splitBlocksAux
  split
  · omega
  · rename_i a b hne heq
    exact absurd hne (by simp)
  · rename_i fuel rest h1 h2
    exact absurd h2 (by simp)
  · rename_i fuel cc rest hcond h1 h2
    simp only [List.cons.injEq] at h2
    rw [← h2.2, splitBlocksAux_nil, ← h2.1]

lemma splitBlocksAux_ne_nil : ∀ f l, splitBlocksAux f l ≠ [] := by
  intro f
  induction f with
  | zero => intro l; simp [splitBlocksAux]
  | succ f ih =>
    intro l
    rcases l with _ | ⟨c, _ | ⟨c2, t2⟩⟩
    · rw [splitBlocksAux_nil]
      simp
    · rw [splitBlocksAux_one]
      simp
    · by_cases hb : c = '\n' ∧ c2 = '\n'
      · rw [hb.1, hb.2, splitBlocksAux_sep_eq]
        simp
      · rcases hrec : splitBlocksAux f (c2 :: t2) with _ | ⟨hh, tt⟩
        · exact absurd hrec (ih (c2 :: t2))
        · rw [splitBlocksAux_cons_ne f c c2 t2 hh tt hb hrec]
          simp

lemma splitBlocksAux_single : ∀ f (l : List Char), l.length ≤ f →
    List.Chain' (fun a b => ¬(a = '\n' ∧ b = '\n')) l →
    splitBlocksAux f l = [l] := by
  intro f
  induction f with
  | zero =>
    intro l hl _
    have : l = [] := List.eq_nil_of_length_eq_zero (by omega)
    rw [this, splitBlocksAux_nil]
  | succ f ih =>
    intro l hl hchain
    rcases l with _ | ⟨c, _ | ⟨c2, t2⟩⟩
    · rw [splitBlocksAux_nil]
    · exact splitBlocksAux_one f c
    · have hcc2 : ¬(c = '\n' ∧ c2 = '\n') :=
        (List.chain'_cons.mp hchain).1
      have hrec : splitBlocksAux f (c2 :: t2) = [c2 :: t2] := by
        apply ih
        · simp only [List.length_cons] at hl ⊢
          omega
        · exact (List.chain'_cons.mp hchain).2
      rw [splitBlocksAux_cons_ne f c c2 t2 _ _ hcc2 hrec]

lemma splitBlocksAux_sep : ∀ (b : List Char) (f : Nat) (rest : List Char),
    List.Chain' (fun a b => ¬(a = '\n' ∧ b = '\n')) b →
    b.getLast? ≠ some '\n' →
    b.length + 2 + rest.length ≤ f →
    splitBlocksAux f (b ++ '\n' :: '\n' :: rest) =
      b :: splitBlocks (rest.dropWhile (fun c => c = '\n')) := by
  intro b
  induction b with
  | nil =>
    intro f rest _ _ hf
    rcases f with _ | f
    · omega
    · show splitBlocksAux (f + 1) ('\n' :: '\n' :: rest) = _
      rw [splitBlocksAux_sep_eq]
      rw [splitBlocksAux_fuel_eq f ((rest.dropWhile (fun c => c = '\n')).length) _
        (by
          have := (List.dropWhile_sublist (l := rest) (p := fun c => c = '\n')).length_le
          simp only [List.length_nil] at hf
          omega)
        (by omega)]
      rfl
  | cons c b' ih =>
    intro f rest hchain hlast hf
    rcases f with _ | f
    · simp at hf
    · rcases b' with _ | ⟨c2, t2⟩
      · have hc : c ≠ '\n' := by
          intro hcn
          apply hlast
          rw [hcn]
          rfl
        have hrec : splitBlocksAux f ('\n' :: '\n' :: rest) =
            [] :: splitBlocks (rest.dropWhile (fun c => c = '\n')) := by
          have := ih f rest (by exact List.chain'_nil) (by simp) (by
            simp only [List.length_cons, List.length_nil] at hf ⊢
            simp
            omega)
          simpa using this
        rw [show ([c] ++ '\n' :: '\n' :: rest) = c :: '\n' :: '\n' :: rest from rfl]
        rw [splitBlocksAux_cons_ne f c '\n' ('\n' :: rest) _ _
          (by intro hb; exact hc hb.1) hrec]
      · have hcc2 : ¬(c = '\n' ∧ c2 = '\n') := (List.chain'_cons.mp hchain).1
        have hlast' : (c2 :: t2).getLast? ≠ some '\n' := by
          intro hl2
          apply hlast
          rw [show (c :: c2 :: t2).getLast? = (c2 :: t2).getLast? from rfl]
          exact hl2
        have hrec := ih f rest (List.chain'_cons.mp hchain).2 hlast' (by
          simp only [List.length_cons] at hf ⊢
          omega)
        simp only [List.cons_append] at hrec ⊢
        rw [splitBlocksAux_cons_ne f c c2 (t2 ++ '\n' :: '\n' :: rest) _ _ hcc2 hrec]

lemma splitBlocks_joinSep : ∀ (blocks : List (List Char)), blocks ≠ [] →
    (∀ b ∈ blocks, List.Chain' (fun a b => ¬(a = '\n' ∧ b = '\n')) b ∧
      b.getLast? ≠ some '\n' ∧ ∃ d t, b = digitChar d :: t) →
    splitBlocks (joinSep ['\n', '\n'] blocks) = blocks := by
  intro blocks
  induction blocks with
  | nil => intro h _; exact absurd rfl h
  | cons b bs ih =>
    intro _ hcond
    rcases bs with _ | ⟨b2, bs'⟩
    · show splitBlocks b = [b]
      exact splitBlocksAux_single b.length b (Nat.le_refl _)
        (hcond b (List.mem_cons_self b [])).1
    · have hb := hcond b (List.mem_cons_self b _)
      have hjoin : joinSep ['\n', '\n'] (b :: b2 :: bs') =
          b ++ '\n' :: '\n' :: joinSep ['\n', '\n'] (b2 :: bs') := by
        show b ++ ['\n', '\n'] ++ joinSep ['\n', '\n'] (b2 :: bs') = _
        simp
      rw [hjoin]
      unfold splitBlocks
      rw [splitBlocksAux_sep b _ _ hb.1 hb.2.1 (by
        simp only [List.length_append, List.length_cons]
        omega)]
      have hb2 := hcond b2 (List.mem_cons_of_mem b (List.mem_cons_self b2 bs'))
      obtain ⟨d2, t2, hd2⟩ := hb2.2.2
      have hdrop : (joinSep ['\n', '\n'] (b2 :: bs')).dropWhile (fun c => c = '\n') =
          joinSep ['\n', '\n'] (b2 :: bs') := by
        have hhead : ∃ r, joinSep ['\n', '\n'] (b2 :: bs') = digitChar d2 :: r := by
          rcases bs' with _ | ⟨b3, bs''⟩
          · exact ⟨t2, by rw [show joinSep ['\n', '\n'] [b2] = b2 from rfl, hd2]⟩
          · refine ⟨t2 ++ ['\n', '\n'] ++ joinSep ['\n', '\n'] (b3 :: bs''), ?_⟩
            show b2 ++ ['\n', '\n'] ++ joinSep ['\n', '\n'] (b3 :: bs'') = _
            rw [hd2]
            simp
        obtain ⟨r, hr⟩ := hhead
        rw [hr, List.dropWhile_cons, if_neg (by
          simp only [decide_eq_true_eq]
          exact digitChar_ne_newline d2)]
      rw [hdrop]
      rw [ih (by simp) (fun x hx => hcond x (List.mem_cons_of_mem b hx))]

/-! ## Whole-subtitle assembly -/

lemma chain'_no2_of_no_newline (l : List Char) (h : ∀ c ∈ l, c ≠ '\n') :
    List.Chain' (fun a b => ¬(a = '\n' ∧ b = '\n')) l := by
  induction l with
  | nil => exact List.chain'_nil
  | cons c t ih =>
    rw [List.chain'_cons']
    refine ⟨?_, ih (fun x hx => h x (List.mem_cons_of_mem c hx))⟩
    intro y _ hcon
    exact h c (List.mem_cons_self c t) hcon.1

lemma block_getLast (A TL text : List Char) (htext : text ≠ []) :
    (A ++ '\n' :: (TL ++ '\n' :: text)).getLast? = text.getLast? := by
  rw [getLast?_append_right _ _ (by simp)]
  rw [show ('\n' :: (TL ++ '\n' :: text)) = ['\n'] ++ (TL ++ '\n' :: text) from rfl]
  rw [getLast?_append_right _ _ (by simp)]
  rw [getLast?_append_right _ _ (by simp)]
  rw [show ('\n' :: text) = ['\n'] ++ text from rfl]
  rw [getLast?_append_right _ _ htext]

lemma srtBlock_conditions (e : SubtitleEntry) (hv : validEntry e = true)
    (hr : roundTrippable e = true) :
    List.Chain' (fun a b => ¬(a = '\n' ∧ b = '\n')) (srtBlock e) ∧
    (∀ c, (srtBlock e).getLast? = some c → isSpace c = false) ∧
    (∃ d t, srtBlock e = digitChar d :: t) := by
  simp only [validEntry, Bool.and_eq_true, decide_eq_true_eq] at hv
  obtain ⟨⟨hlt, hidx⟩, htext⟩ := hv
  simp only [roundTrippable, Bool.and_eq_true, decide_eq_true_eq] at hr
  obtain ⟨⟨⟨⟨⟨⟨⟨hs0, hsm⟩, hslt⟩, ht0⟩, htm⟩, htlt⟩, hstrip⟩, hndn⟩ := hr
  have hchain := (noDoubleNewline_iff e.text).mp hndn
  have htne : e.text ≠ [] := fun hnil => htext (by rw [hnil]; rfl)
  have hn1lt : e.start.toNat < 360000000000 := by omega
  have hn2lt : e.stop.toNat < 360000000000 := by omega
  rw [srtBlock_shape e (by omega) hs0 ht0]
  refine ⟨?_, ?_, ?_⟩
  · rw [List.chain'_append]
    refine ⟨chain'_no2_of_no_newline _ (natRepr_no_newline _), ?_, ?_⟩
    · rw [List.chain'_cons']
      constructor
      · intro y hy hcon
        obtain ⟨d1, t1, hd1⟩ := srtTimestamp_head e.start.toNat hn1lt
        rw [hd1] at hy
        simp only [List.cons_append, List.head?_cons, Option.mem_def,
          Option.some.injEq] at hy
        rw [← hy] at hcon
        exact digitChar_ne_newline d1 hcon.2
      · rw [List.chain'_append]
        refine ⟨chain'_no2_of_no_newline _
          (timing_no_newline _ _ hn1lt hn2lt), ?_, ?_⟩
        · rw [List.chain'_cons']
          constructor
          · intro y hy hcon
            have hy' : e.text.head? = some y := Option.mem_def.mp hy
            have hns := pyStrip_self_head e.text hstrip y hy'
            rw [hcon.2] at hns
            exact absurd hns (by decide)
          · exact hchain
        · intro x hx y hy hcon
          rw [getLast?_append_right _ _ (by simp)] at hx
          rw [show (' ' :: '-' :: '-' :: '>' :: ' ' ::
              srtTimestamp ((e.stop.toNat : Nat) : Int)) = [' ', '-', '-', '>', ' '] ++
              srtTimestamp ((e.stop.toNat : Nat) : Int) from rfl] at hx
          obtain ⟨d1, t1, hd1⟩ := srtTimestamp_head e.stop.toNat hn2lt
          rw [getLast?_append_right _ _ (by rw [hd1]; simp)] at hx
          obtain ⟨d3, hd3⟩ := srtTimestamp_last e.stop.toNat hn2lt
          rw [hd3] at hx
          simp only [Option.mem_def, Option.some.injEq] at hx
          rw [← hx] at hcon
          exact digitChar_ne_newline d3 hcon.1
    · intro x hx y hy hcon
      have hxmem : x ∈ natRepr e.index.natAbs := List.mem_of_mem_getLast? hx
      obtain ⟨d, hd⟩ := natRepr_mem e.index.natAbs x hxmem
      rw [hd] at hcon
      exact digitChar_ne_newline d hcon.1
  · intro c hc
    rw [block_getLast _ _ _ htne] at hc
    exact pyStrip_self_last e.text hstrip c hc
  · obtain ⟨d, t, hd⟩ := natRepr_head_digit e.index.natAbs
    rw [hd]
    exact ⟨d, t ++ '\n' :: _, rfl⟩

lemma joinSep_head_cons (sep : List Char) (c : Char) (t : List Char)
    (bs : List (List Char)) :
    ∃ r, joinSep sep ((c :: t) :: bs) = c :: r := by
  rcases bs with _ | ⟨b2, bs'⟩
  · exact ⟨t, rfl⟩
  · exact ⟨t ++ sep ++ joinSep sep (b2 :: bs'), by
      show (c :: t) ++ sep ++ joinSep sep (b2 :: bs') = _
      simp⟩

lemma joinSep_last_prop (sep : List Char) (P : Char → Prop) :
    ∀ (bs : List (List Char)) (b : List Char),
      (∀ x ∈ b :: bs, ∃ d t, x = digitChar d :: t) →
      (∀ x ∈ b :: bs, ∀ c, x.getLast? = some c → P c) →
      ∀ c, (joinSep sep (b :: bs)).getLast? = some c → P c := by
  intro bs
  induction bs with
  | nil =>
    intro b _ hlast c hc
    exact hlast b (List.mem_cons_self b []) c hc
  | cons b2 bs' ih =>
    intro b hne hlast c hc
    rw [show joinSep sep (b :: b2 :: bs') = b ++ sep ++ joinSep sep (b2 :: bs')
      from rfl] at hc
    obtain ⟨d2, t2, hd2⟩ := hne b2 (List.mem_cons_of_mem b (List.mem_cons_self b2 bs'))
    obtain ⟨r, hr⟩ := joinSep_head_cons sep (digitChar d2) t2 bs'
    rw [← hd2] at hr
    have hJne : joinSep sep (b2 :: bs') ≠ [] := by
      rw [hr]
      simp
    rw [List.append_assoc] at hc
    rw [getLast?_append_right _ _ (fun hx => hJne (List.append_eq_nil.mp hx).2)] at hc
    rw [getLast?_append_right _ _ hJne] at hc
    exact ih b2 (fun x hx => hne x (List.mem_cons_of_mem b hx))
      (fun x hx => hlast x (List.mem_cons_of_mem b hx)) c hc

lemma pyStrip_join_newline (J : List Char)
    (hh : ∀ c, J.head? = some c → isSpace c = false)
    (hl : ∀ c, J.getLast? = some c → isSpace c = false)
    (hne : J ≠ []) : pyStrip (J ++ ['\n']) = J := by
  rcases J with _ | ⟨c, t⟩
  · exact absurd rfl hne
  · unfold pyStrip
    rw [List.cons_append, List.dropWhile_cons, if_neg (by rw [hh c rfl]; simp)]
    rw [show ((c :: (t ++ ['\n'])).reverse) = '\n' :: (c :: t).reverse from by
      rw [← List.cons_append, List.reverse_append]
      rfl]
    rw [List.dropWhile_cons, if_pos (by decide)]
    rcases hrev : (c :: t).reverse with _ | ⟨d, r⟩
    · exact absurd hrev (by simp)
    · have hd : (c :: t).getLast? = some d := by
        rw [← List.head?_reverse, hrev]
        rfl
      rw [List.dropWhile_cons, if_neg (by rw [hl d hd]; simp)]
      rw [← hrev, List.reverse_reverse]

lemma parseSrtBlocks_map : ∀ entries : List SubtitleEntry,
    (∀ e ∈ entries, parseSrtBlock (srtBlock e) = .ok e) →
    parseSrtBlocks (entries.map srtBlock) = .ok entries := by
  intro entries
  induction entries with
  | nil => intro _; rfl
  | cons e es ih =>
    intro h
    rw [List.map_cons]
    unfold parseSrtBlocks
    rw [h e (List.mem_cons_self e es)]
    simp only [Bind.bind, Except.bind]
    rw [ih (fun x hx => h x (List.mem_cons_of_mem e hx))]

lemma parse_serialize_srt (entries : List SubtitleEntry)
    (hv : validSubtitleList entries = true)
    (he : ∀ e ∈ entries, validEntry e = true ∧ roundTrippable e = true) :
    parse_srt (serialize_srt entries) = .ok entries := by
  have hne : entries ≠ [] := by
    simp only [validSubtitleList, Bool.and_eq_true, decide_eq_true_eq] at hv
    exact hv.1.1
  have hcond : ∀ b ∈ entries.map srtBlock,
      List.Chain' (fun a b => ¬(a = '\n' ∧ b = '\n')) b ∧
      b.getLast? ≠ some '\n' ∧ ∃ d t, b = digitChar d :: t := by
    intro b hb
    obtain ⟨e, hmem, rfl⟩ := List.mem_map.mp hb
    obtain ⟨h1, h2, h3⟩ := srtBlock_conditions e (he e hmem).1 (he e hmem).2
    refine ⟨h1, ?_, h3⟩
    intro hlast
    have := h2 '\n' hlast
    exact absurd this (by decide)
  have hcond2 : ∀ b ∈ entries.map srtBlock,
      (∀ c, b.getLast? = some c → isSpace c = false) ∧ ∃ d t, b = digitChar d :: t := by
    intro b hb
    obtain ⟨e, hmem, rfl⟩ := List.mem_map.mp hb
    obtain ⟨h1, h2, h3⟩ := srtBlock_conditions e (he e hmem).1 (he e hmem).2
    exact ⟨h2, h3⟩
  rcases hent : entries with _ | ⟨e1, es⟩
  · exact absurd hent hne
  rw [← hent]
  have hmapne : entries.map srtBlock = srtBlock e1 :: es.map srtBlock := by
    rw [hent, List.map_cons]
  have hb1mem : srtBlock e1 ∈ entries.map srtBlock := by
    rw [hmapne]
    exact List.mem_cons_self (srtBlock e1) (es.map srtBlock)
  obtain ⟨d1, t1, hd1⟩ := (hcond2 (srtBlock e1) hb1mem).2
  obtain ⟨r1, hr1⟩ := joinSep_head_cons ['\n', '\n'] (digitChar d1) t1 (es.map srtBlock)
  have hJ : joinSep ['\n', '\n'] (entries.map srtBlock) = digitChar d1 :: r1 := by
    rw [hmapne, hd1]
    exact hr1
  have hJne : joinSep ['\n', '\n'] (entries.map srtBlock) ≠ [] := by
    rw [hJ]
    simp
  unfold serialize_srt
  rw [show chars "\n\n" = ['\n', '\n'] from rfl, show chars "\n" = ['\n'] from rfl]
  have hhead : ∀ c, (joinSep ['\n', '\n'] (entries.map srtBlock)).head? = some c →
      isSpace c = false := by
    intro c hc
    rw [hJ] at hc
    simp only [List.head?_cons, Option.some.injEq] at hc
    rw [← hc]
    exact digitChar_not_space d1
  have hlastp : ∀ c, (joinSep ['\n', '\n'] (entries.map srtBlock)).getLast? = some c →
      isSpace c = false := by
    rw [hmapne]
    exact joinSep_last_prop ['\n', '\n'] (fun c => isSpace c = false) (es.map srtBlock)
      (srtBlock e1)
      (by rw [← hmapne]; exact fun x hx => (hcond2 x hx).2)
      (by rw [← hmapne]; exact fun x hx => (hcond2 x hx).1)
  unfold parse_srt
  rw [pyStrip_join_newline _ hhead hlastp hJne]
  rw [if_neg hJne]
  rw [splitBlocks_joinSep (entries.map srtBlock) (by rw [hmapne]; simp) hcond]
  dsimp only
  rw [parseSrtBlocks_map entries (fun e hm =>
    parseSrtBlock_srtBlock e (he e hm).1 (he e hm).2)]
  simp only [Bind.bind, Except.bind]
  rw [if_neg hne]
  unfold checkSubtitle
  rw [if_pos hv]


/-- Counterexample for C6: the entry with text containing a blank line is a
valid `SubtitleEntry` and forms a valid single-entry `Subtitle`, yet parsing
the serialization of that subtitle does not return it (the blank line inside
the text is taken as a block separator by `parse_srt`). -/
theorem c6_round_trip_counterexample :
    validSubtitleList [cexBlankLineEntry] = true ∧
    validEntry cexBlankLineEntry = true ∧
    parse_srt (serialize_srt [cexBlankLineEntry]) ≠ .ok [cexBlankLineEntry] :=
  ⟨by decide, by decide, by decide⟩

/-- C6: the plain-text SRT codec round-trips — `parse_srt (serialize_srt S)`
returns `S` entry-for-entry — for every valid subtitle all of whose entries
have non-negative whole-millisecond offsets below 100 hours and strip-stable
text without blank lines; the styled dual-track format has a serializer only
(no parser exists in the code base), so no parse-serialize law holds for it. -/
theorem c6_round_trip (entries : List SubtitleEntry)
    (hv : validSubtitleList entries = true)
    (he : ∀ e ∈ entries, validEntry e = true ∧ roundTrippable e = true) :
    parse_srt (serialize_srt entries) = .ok entries :=
  parse_serialize_srt entries hv he

/-- Witness for C6 at a concrete two-entry subtitle satisfying the side
conditions. -/
theorem c6_round_trip_witness :
    validSubtitleList rtEntries = true ∧
    (∀ e ∈ rtEntries, validEntry e = true ∧ roundTrippable e = true) ∧
    parse_srt (serialize_srt rtEntries) = .ok rtEntries :=
  ⟨by decide, by decide, c6_round_trip rtEntries (by decide) (by decide)⟩

end BilingualSub
